import Mathlib

/-!
Verification development for the score-trend spreadsheet import engine.

The definitions below are a shallow embedding of the TypeScript sources
(`src/importEngine.ts` and the sheet-parsing module).  Dynamic cell values
are modelled by the closed sum type `CellV` (null/undefined, string,
finite number); JavaScript numbers are modelled by `ℚ` (the programs only
compare, divide and range-check them); `String(v)` of an integer-valued
number is rendered as its decimal numeral, which is exact for the integer
values that occur in this program's data.  Maps and Sets are modelled by
insertion-ordered association lists, matching JavaScript iteration order.
-/

namespace ScoreTrend

/-- JavaScript cell value: null/undefined, a string, or a finite number. -/
inductive CellV where
  | vnull
  | vstr (s : String)
  | vnum (q : ℚ)
  deriving Repr, DecidableEq

/-- Decimal numeral of a natural number. -/
def natStr (n : Nat) : String := toString n

/-- Rendering of a number by JavaScript `String(...)`. Integer values are
rendered exactly; non-integer values do not occur in this development. -/
def ratStr (q : ℚ) : String :=
  if q.den = 1 then
    (if q.num < 0 then "-" ++ natStr q.num.natAbs else natStr q.num.natAbs)
  else
    (if q.num < 0 then "-" ++ natStr q.num.natAbs else natStr q.num.natAbs)
      ++ "." ++ natStr q.den

/-- Whitespace trimming (JavaScript `trim()`), defined over the character
list so that concrete evaluation reduces in the kernel. -/
def strTrim (s : String) : String :=
  String.mk
    (((s.toList.dropWhile Char.isWhitespace).reverse.dropWhile
      Char.isWhitespace).reverse)

/-- `String(v ?? "")`. -/
def cellStr : CellV → String
  | .vnull => ""
  | .vstr s => s
  | .vnum q => ratStr q

/-- `String(v ?? "").trim()`. -/
def cellTrim (v : CellV) : String := strTrim (cellStr v)

/-- `isEmptyCell` of the parsing module: null/undefined or blank string. -/
def isEmptyCellB (v : CellV) : Bool := cellTrim v == ""

/-- A data row: column key → cell value (JavaScript object literal). -/
abbrev Row : Type := List (String × CellV)

/-- `r[key]`, with absent keys reading as undefined. -/
def rowGet (r : Row) (k : String) : CellV :=
  match List.find? (fun p => p.1 == k) r with
  | some p => p.2
  | none => .vnull

/-- Substring test on character lists (JavaScript `String.includes`). -/
def listInfixOf (pat : List Char) : List Char → Bool
  | [] => pat.isEmpty
  | c :: t => pat.isPrefixOf (c :: t) || listInfixOf pat t

/-- `s.includes Char(kw)` on strings. -/
def hInc (s kw : String) : Bool := listInfixOf kw.toList s.toList

/-- Strip a trailing `open letters+ 列 close` group, as the two
`replace(/([a-zA-Z]+列)$/,"")`-style steps of `normalizeHeader` do. -/
def dropColSuffix (openP closeP : Char) (cs : List Char) : List Char :=
  match cs.reverse with
  | c0 :: c1 :: rest =>
    if c0 = closeP ∧ c1 = '列' then
      let letters := rest.takeWhile Char.isAlpha
      let rest2 := rest.dropWhile Char.isAlpha
      match letters, rest2 with
      | _ :: _, o :: tail => if o = openP then tail.reverse else cs
      | _, _ => cs
    else cs
  | _ => cs

/-- `normalizeHeader` from importEngine.ts: trim, strip a trailing
"(x列)" annotation (fullwidth then ASCII parens), delete whitespace,
map fullwidth parens to ASCII, lowercase. -/
def normalizeHeader (s : String) : String :=
  let cs := (strTrim s).toList
  let cs := dropColSuffix '（' '）' cs
  let cs := dropColSuffix '(' ')' cs
  let cs := cs.filter (fun c => !c.isWhitespace)
  let cs := cs.map (fun c => if c = '（' then '(' else if c = '）' then ')' else c)
  let cs := cs.map Char.toLower
  String.mk cs

/-- Digit-list to natural number. -/
def digitsVal (cs : List Char) : Nat :=
  cs.foldl (fun a c => a * 10 + (c.toNat - '0'.toNat)) 0

/-- JavaScript `Number(...)` on a non-empty string over the alphabet
`0-9 . -` (the residue of `replace(/[^\d.\-]/g,"")`): an optional leading
minus, at most one dot, at least one digit; anything else is NaN. -/
def parseCleaned (cs : List Char) : Option ℚ :=
  let negBody : Bool × List Char :=
    match cs with
    | '-' :: t => (true, t)
    | _ => (false, cs)
  let neg := negBody.1
  let body := negBody.2
  if body.any (fun c => c = '-') then none
  else
    match body.splitOn '.' with
    | [ip] =>
      if ip.all Char.isDigit ∧ ip ≠ [] then
        some ((if neg then -1 else 1) * (digitsVal ip : ℚ))
      else none
    | [ip, fp] =>
      if (ip ++ fp).all Char.isDigit ∧ ip ++ fp ≠ [] then
        some ((if neg then -1 else 1) *
          ((digitsVal ip : ℚ) + (digitsVal fp : ℚ) / (10 ^ fp.length : ℚ)))
      else none
    | _ => none

/-- `toNumber` from importEngine.ts. -/
def toNumber : CellV → Option ℚ
  | .vnull => none
  | .vnum q => some q
  | .vstr s =>
    let t := strTrim s
    if t = "" then none
    else
      let cs := t.toList.filter (fun c => c.isDigit || c = '.' || c = '-')
      if cs = [] then none else parseCleaned cs

/-- `isLikelyChineseName`: 2 to 5 CJK ideographs after trimming. -/
def isLikelyChineseName (s : String) : Bool :=
  let cs := (strTrim s).toList
  decide (2 ≤ cs.length) && decide (cs.length ≤ 5) &&
    cs.all (fun c => decide (0x4e00 ≤ c.toNat) && decide (c.toNat ≤ 0x9fa5))

/-- A parsed column of a block. -/
structure ParsedColumn where
  key : String
  label : String
  colIndex : Nat
  deriving Repr, DecidableEq

/-- The `let best := init; for a in l: if score a > bestScore then update`
selection loop shared by the column guessers and vote counting. -/
def selFold {α σ β : Type} [LinearOrder β] (f : α → β) (g : α → σ)
    (l : List α) (init : σ × β) : σ × β :=
  l.foldl (fun b a => if b.2 < f a then (g a, f a) else b) init

/-- `findAllNameCols`: keys of all columns whose normalized header
contains 姓名 or 名字. -/
def findAllNameCols (cols : List ParsedColumn) : List String :=
  (cols.filter (fun c =>
    let h := normalizeHeader c.label
    hInc h "姓名" || hInc h "名字")).map (fun c => c.key)

/-- Rank-style headers excluded by `guessClassCol`. -/
def classRankLike (h : String) : Bool :=
  (["排名", "名次", "rank", "班级排", "年级排", "班排", "年排", "校排", "级排"].any
    (fun k => hInc h k)) ||
  (hInc h "排" && (hInc h "班" || hInc h "年" || hInc h "校" || hInc h "级"))

/-- `guessClassCol`: exact class-header match first, then a looser
contains-match, skipping rank-like headers in both passes. -/
def guessClassCol (cols : List ParsedColumn) : String :=
  let includeExact := ["班级", "班级号", "行政班", "班号", "班别", "班级编号"]
  match cols.find? (fun c =>
      let h := normalizeHeader c.label
      !classRankLike h && includeExact.contains h) with
  | some c => c.key
  | none =>
    match cols.find? (fun c =>
        let h := normalizeHeader c.label
        !classRankLike h &&
          (hInc h "班级号" || hInc h "行政班" || hInc h "班号" ||
            h == "班级" || hInc h "班级")) with
    | some c => c.key
    | none => ""

/-- Per-column score of `guessNameCol`: +6 for a name header, plus up to
10 scaled by the fraction of sampled non-empty values that look like a
short personal name. -/
def nameScore (rows : List Row) (c : ParsedColumn) : ℚ :=
  let h := normalizeHeader c.label
  let base : ℚ := if hInc h "姓名" || hInc h "名字" then 6 else 0
  let vals := ((rows.take 450).map (fun r => cellTrim (rowGet r c.key))).filter
    (fun s => s ≠ "")
  let seen := vals.length
  let hit := (vals.filter (fun s => isLikelyChineseName s)).length
  if seen ≠ 0 then base + (hit : ℚ) / (seen : ℚ) * 10 else base

/-- The seed of `guessNameCol`: the first name-headered column's key
(`prefer?.key`), else the first column's key, else "". -/
def nameSeed (cols : List ParsedColumn) : String :=
  match cols.find? (fun c =>
      let h := normalizeHeader c.label
      hInc h "姓名" || hInc h "名字") with
  | some c => c.key
  | none =>
    match cols with
    | c :: _ => c.key
    | [] => ""

/-- `guessNameCol`: strict-improvement scan over all columns, seeded with
the first name-headered column, else the first column, else "". -/
def guessNameCol (rows : List Row) (cols : List ParsedColumn) : String :=
  (selFold (nameScore rows) (fun c => c.key) cols (nameSeed cols, (-1 : ℚ))).1

/-- Rank-like headers hard-excluded by `guessTotalCol`. -/
def totalRankLike (h : String) : Bool :=
  hInc h "排名" || hInc h "名次" || hInc h "班级排" || hInc h "年级排" ||
    (hInc h "排" && (hInc h "班" || hInc h "年" || hInc h "校" || hInc h "级"))

/-- Identity/metadata headers hard-excluded by `guessTotalCol`: class
variants, exam-number variants, and name variants. -/
def totalMetaLike (h : String) : Bool :=
  h == "班级" || hInc h "班级号" || hInc h "行政班" || hInc h "班号" ||
    hInc h "考号" || hInc h "准考证" || h == "姓名" || hInc h "名字"

/-- Per-column score of `guessTotalCol` (`scoreTotal` in the source). -/
def scoreTotal (rows : List Row) (c : ParsedColumn) : ℚ :=
  let h := normalizeHeader c.label
  let good := ["总分", "总分得分", "总分_得分", "总分原始分", "总分_原始分",
    "总分原始", "总分_原始"]
  let base : ℚ := if good.any (fun g => hInc h g) then 20 else 0
  if totalRankLike h then -9999
  else if totalMetaLike h then -9999
  else
    let base2 := if hInc h "赋分" then base - 50 else base
    let vals := ((rows.take 450).map (fun r => rowGet r c.key)).filter
      (fun v => cellTrim v ≠ "")
    let seen := vals.length
    let nums := vals.filterMap toNumber
    let numeric := nums.length
    let inRange := (nums.filter (fun n => decide (0 ≤ n) && decide (n ≤ 1200))).length
    let veryLarge := (nums.filter (fun n => decide ((100000 : ℚ) ≤ n))).length
    if seen ≠ 0 then
      base2 + (numeric : ℚ) / (seen : ℚ) * 5 + (inRange : ℚ) / (seen : ℚ) * 30
        - (veryLarge : ℚ) / (seen : ℚ) * 200
    else base2 - 50

/-- `guessTotalCol`: highest-scoring column, kept only if its score is at
least 10, else "". -/
def guessTotalCol (rows : List Row) (cols : List ParsedColumn) : String :=
  let r := selFold (scoreTotal rows) (fun c => c.key) cols ("", (-(10 ^ 9) : ℚ))
  if r.2 < 10 then "" else r.1

/-- `hasAnyNonEmpty(rows, colKey, limit = 400)`. -/
def hasAnyNonEmpty (rows : List Row) (colKey : String) (limit : Nat) : Bool :=
  if colKey = "" then false
  else (rows.take limit).any (fun r => cellTrim (rowGet r colKey) ≠ "")

/-- The class column after the emptiness guard of importFiles line 422:
`if (classCol && !hasAnyNonEmpty(rows, classCol)) classCol = ""`. -/
def importClassCol (cols : List ParsedColumn) (rows : List Row) : String :=
  let c := guessClassCol cols
  if c ≠ "" ∧ ¬ hasAnyNonEmpty rows c 400 then "" else c

/-- The resolved name column of importFiles line 432:
`nameCols[0] || guessNameCol(rows, cols)`. -/
def resolveNameCol (cols : List ParsedColumn) (rows : List Row) : String :=
  let nameCols := findAllNameCols cols
  if nameCols.headD "" ≠ "" then nameCols.headD "" else guessNameCol rows cols

/-- The `fixedClassCol` computed by importFiles lines 435-459: the class
column is invalidated when, over the first min(300, n) rows, at least 10
rows have a non-empty name and fewer than 10% of those also have a
non-empty class cell.  The result of this computation is never written
into the produced record (the push at line 495 uses `classCol`). -/
def importFixedClassCol (cols : List ParsedColumn) (rows : List Row) : String :=
  let classCol := importClassCol cols rows
  let nameCol := resolveNameCol cols rows
  if classCol = "" then classCol
  else
    let sample := rows.take (min 300 rows.length)
    let named := sample.filter (fun r =>
      (if nameCol ≠ "" then cellTrim (rowGet r nameCol) else "") ≠ "")
    let seen := named.length
    let nonEmpty := (named.filter (fun r => cellTrim (rowGet r classCol) ≠ "")).length
    let ratio : ℚ := if seen = 0 then 0 else (nonEmpty : ℚ) / (seen : ℚ)
    if 10 ≤ seen ∧ ratio < 1 / 10 then "" else classCol

/-- Fatal error message for multiple name columns (importFiles line 429). -/
def msgMultiName (n : Nat) : String :=
  "检测到多个“姓名”列（" ++ natStr n ++ "列）。请合并为一列后再导入。"

/-- Fatal error message for a missing name column (importFiles line 433). -/
def msgNoName : String := "未识别到“姓名”列（支持“姓名/姓 名/名字”）。"

/-- Warning message for a suspicious total column (importFiles line 478). -/
def msgTotalTiny : String :=
  "总分列疑似异常（大量值<=20），可能误选为排名列，请检查该sheet表头。"

/-- Warning computation of importFiles lines 469-480. -/
def totalWarnings (rows : List Row) (totalCol : String) : List String :=
  if totalCol = "" then []
  else
    let nums := (rows.take 300).filterMap (fun r => toNumber (rowGet r totalCol))
    let seen := nums.length
    let tiny := (nums.filter (fun n => decide (0 ≤ n) && decide (n ≤ 20))).length
    if 10 ≤ seen ∧ (7 : ℚ) / 10 ≤ (tiny : ℚ) / (seen : ℚ) then [msgTotalTiny]
    else []

/-- The role/diagnostic fields importFiles pushes into each ExamRecord. -/
structure SheetFields where
  classCol : String
  nameCol : String
  totalCol : String
  fatalErrors : List String
  warnings : List String
  deriving Repr, DecidableEq

/-- The per-sheet field computation of importFiles (lines 420-506).  Note
that the pushed `classCol` is the line-422 value: `fixedClassCol` is a
dead local in the source. -/
def mkSheetFields (cols : List ParsedColumn) (rows : List Row) : SheetFields :=
  let classCol := importClassCol cols rows
  let nameCols := findAllNameCols cols
  let fatal0 : List String :=
    if 2 ≤ nameCols.length then [msgMultiName nameCols.length] else []
  let nameCol := resolveNameCol cols rows
  let fatal1 := if nameCol = "" then fatal0 ++ [msgNoName] else fatal0
  let totalCol := guessTotalCol rows cols
  { classCol := classCol
    nameCol := nameCol
    totalCol := totalCol
    fatalErrors := fatal1
    warnings := totalWarnings rows totalCol }

/-- The ExamConfig fields that the class-resolution functions read. -/
structure ExamCfg where
  rows : List Row
  nameCol : String
  classCol : String
  inferredClass : String
  overrideClass : String
  deriving Repr, DecidableEq

/-- `hasClassData`: the class column is set and non-empty somewhere in the
first 300 rows. -/
def hasClassData (ex : ExamCfg) : Bool :=
  ex.classCol ≠ "" &&
    (ex.rows.take 300).any (fun r => cellTrim (rowGet r ex.classCol) ≠ "")

/-- The name-sampling loop of `inferSheetClass`: push each non-empty
trimmed name cell in row order, stopping after `need` names. -/
def takeNames (key : String) : List Row → Nat → List String
  | [], _ => []
  | r :: t, need =>
    let n := cellTrim (rowGet r key)
    if n = "" then takeNames key t need
    else if need ≤ 1 then [n] else n :: takeNames key t (need - 1)

/-- The names `inferSheetClass` samples for voting (up to 6, row order). -/
def sampleNames (ex : ExamCfg) : List String :=
  if ex.nameCol = "" then [] else takeNames ex.nameCol ex.rows 6

/-- ClassIndex `nameToClasses` as an insertion-ordered association list. -/
def ClassIdx : Type := List (String × List String)

/-- `idx.nameToClasses.get(n)`, with a missing name reading as no classes. -/
def lookupClasses (idx : ClassIdx) (n : String) : List String :=
  match List.find? (fun p => p.1 == n) idx with
  | some p => p.2
  | none => []

/-- `vote.set(c, (vote.get(c) ?? 0) + 1)` on an insertion-ordered map. -/
def voteAdd (votes : List (String × Nat)) (c : String) : List (String × Nat) :=
  if votes.any (fun p => p.1 == c) then
    votes.map (fun p => if p.1 == c then (p.1, p.2 + 1) else p)
  else votes ++ [(c, 1)]

/-- One step of the voting loop of `inferSheetClass`. -/
def tallyStep (idx : ClassIdx) (st : Nat × List (String × Nat)) (n : String) :
    Nat × List (String × Nat) :=
  let classes := lookupClasses idx n
  if classes = [] then st
  else (st.1 + 1, classes.foldl voteAdd st.2)

/-- The voting loop of `inferSheetClass`: each sampled name with a known
class contributes one to `hit` and one vote per observed class. -/
def tallyVotes (names : List String) (idx : ClassIdx) :
    Nat × List (String × Nat) :=
  names.foldl (tallyStep idx) (0, [])

/-- `inferSheetClass` from importEngine.ts. -/
def inferSheetClass (ex : ExamCfg) (idx : ClassIdx) : String :=
  if hasClassData ex then ex.inferredClass
  else if ex.nameCol = "" then "未知班级"
  else
    let names := takeNames ex.nameCol ex.rows 6
    if names.length < 3 then "未知班级"
    else
      let t := tallyVotes names idx
      if t.1 < 3 ∨ t.2 = [] then "未知班级"
      else
        let best := selFold (fun p => (p.2 : Int)) (fun p => p.1) t.2 ("", (-1 : Int))
        let ratio : ℚ := (best.2 : ℚ) / (t.1 : ℚ)
        if 150 ≤ ex.rows.length ∧ ratio < 85 / 100 then "全校"
        else if 7 / 10 ≤ ratio then best.1
        else "未知班级"

/-- The distinct-class sampling loop of `getEffectiveClass`: collect the
distinct non-empty trimmed class values in first-appearance order,
stopping as soon as two have been seen. -/
def classSample (key : String) : List Row → List String → List String
  | [], acc => acc
  | r :: t, acc =>
    let v := cellTrim (rowGet r key)
    if v = "" then classSample key t acc
    else
      let acc2 := if acc.contains v then acc else acc ++ [v]
      if 2 ≤ acc2.length then acc2 else classSample key t acc2

/-- Distinct values of a list in order of first appearance, continuing
from an accumulator (the specification-side notion of "sampled distinct
class values" used to characterize `getEffectiveClass`). -/
def firstDedupFrom (acc vals : List String) : List String :=
  vals.foldl (fun a v => if a.contains v then a else a ++ [v]) acc

/-- Distinct values of a list in order of first appearance. -/
def firstDedup (vals : List String) : List String := firstDedupFrom [] vals

/-- `getEffectiveClass` from importEngine.ts. -/
def getEffectiveClass (ex : ExamCfg) : String :=
  let c := strTrim ex.overrideClass
  if c ≠ "" then c
  else if ex.classCol ≠ "" then
    let set := classSample ex.classCol (ex.rows.take 300) []
    if set.length = 1 then set.headD ""
    else if 2 ≤ set.length then "全校"
    else "未知班级"
  else if ex.inferredClass ≠ "" then ex.inferredClass
  else "未知班级"

/-- A sheet matrix: rows of cells (holes read as undefined). -/
abbrev Matrix : Type := List (List CellV)

/-- `matrix[r]?.[c]` with JavaScript hole semantics. -/
def getCell (mat : Matrix) (r c : Nat) : CellV := (mat.getD r []).getD c .vnull

/-- A merged-cell range (`m.s.r / m.s.c / m.e.r / m.e.c`). -/
structure MergeRange where
  sr : Nat
  sc : Nat
  er : Nat
  ec : Nat
  deriving Repr, DecidableEq

/-- A worksheet: cell contents plus declared merge ranges. -/
structure WS where
  cells : Nat → Nat → CellV
  merges : List MergeRange

/-- `getCellValueMerged`: the cell itself when non-blank, else the raw
top-left cell of the first merge range containing the position. -/
def getCellValueMerged (ws : WS) (r0 c0 : Nat) : CellV :=
  let v := ws.cells r0 c0
  if ¬ isEmptyCellB v then v
  else
    match ws.merges.find? (fun m =>
        decide (m.sr ≤ r0 ∧ r0 ≤ m.er ∧ m.sc ≤ c0 ∧ c0 ≤ m.ec)) with
    | some m => ws.cells m.sr m.sc
    | none => .vnull

/-- `row[c] = v`, extending the array with holes when `c` is past the end. -/
def setPad (row : List CellV) (c : Nat) (v : CellV) : List CellV :=
  if c < row.length then row.set c v
  else row ++ List.replicate (c - row.length) .vnull ++ [v]

/-- `matrix[r] = row`, extending with empty rows when `r` is past the end. -/
def matSetPad (mat : Matrix) (r : Nat) (row : List CellV) : Matrix :=
  if r < mat.length then mat.set r row
  else mat ++ List.replicate (r - mat.length) [] ++ [row]

/-- One column of the inner fill loop of `applyMergesToMatrix`. -/
def fillStep (tl : CellV) (c1 : Nat) (rw : List CellV) (i : Nat) : List CellV :=
  if isEmptyCellB (rw.getD (c1 + i) .vnull) then setPad rw (c1 + i) tl else rw

/-- The inner column loop of `applyMergesToMatrix`: for `c` in
`[c1, c2]`, fill the cell with `tl` when it is currently empty. -/
def fillRow (row : List CellV) (tl : CellV) (c1 c2 : Nat) : List CellV :=
  (List.range (c2 + 1 - c1)).foldl (fillStep tl c1) row

/-- One row of the per-merge loop of `applyMergesToMatrix`. -/
def mergeRowStep (tl : CellV) (sr sc ec : Nat) (mm : Matrix) (i : Nat) :
    Matrix :=
  matSetPad mm (sr + i) (fillRow (mm.getD (sr + i) []) tl sc ec)

/-- One merge range of the `applyMergesToMatrix` loop body (`tl` is the
merge's top-left value, `rEnd` its clipped bottom row). -/
def applyOneMerge (ws : WS) (maxRows : Nat) (mat : Matrix) (m : MergeRange) :
    Matrix :=
  if maxRows ≤ m.sr then mat
  else if isEmptyCellB (getCellValueMerged ws m.sr m.sc) then mat
  else
    (List.range (min m.er (maxRows - 1) + 1 - m.sr)).foldl
      (mergeRowStep (getCellValueMerged ws m.sr m.sc) m.sr m.sc m.ec) mat

/-- `applyMergesToMatrix` from the parsing module: with no merges the
matrix is returned untouched; otherwise it is padded to `maxRows` rows
and each merge whose top row is within `maxRows` back-fills its empty
cells (clipped to `maxRows` rows) with its non-blank top-left value. -/
def applyMergesToMatrix (ws : WS) (mat : Matrix) (maxRows : Nat) : Matrix :=
  if ws.merges.isEmpty then mat
  else
    let m0 := mat ++ List.replicate (maxRows - mat.length) []
    ws.merges.foldl (applyOneMerge ws maxRows) m0

/-- A merge range qualifies for and covers cell `(r, c)` during
normalization to 30 rows: its top row is under 30, its top-left value is
non-blank, and `(r, c)` lies in the range clipped to the first 30 rows.
An originally-empty cell receives the top-left value of the first such
range in the merge list. -/
def coversQual (ws : WS) (m : MergeRange) (r c : Nat) : Prop :=
  m.sr < 30 ∧ cellTrim (getCellValueMerged ws m.sr m.sc) ≠ "" ∧
    m.sr ≤ r ∧ r ≤ min m.er 29 ∧ m.sc ≤ c ∧ c ≤ m.ec

/-- `colLetter` helper loop.  The first argument is structural fuel; the
loop divides `x` by 26 each step, so fuel `x` always suffices and the
fuel-exhausted case is unreachable from `colLetter`. -/
def colLetterGo : Nat → Nat → String → String
  | 0, _, acc => acc
  | fuel + 1, x, acc =>
    if x = 0 then acc
    else
      colLetterGo fuel ((x - 1) / 26)
        (String.mk [Char.ofNat (65 + (x - 1) % 26)] ++ acc)

/-- `colLetter`: 0-based column index to spreadsheet letters. -/
def colLetter (n : Nat) : String := colLetterGo (n + 1) (n + 1) ""

/-- `norm` from the parsing module (named `normKey` here because `norm`
is taken by Mathlib): trim, drop whitespace, normalize parens, lowercase. -/
def normKey (s : String) : String :=
  let cs := (strTrim s).toList
  let cs := cs.filter (fun c => !c.isWhitespace)
  let cs := cs.map (fun c => if c = '（' then '(' else if c = '）' then ')' else c)
  let cs := cs.map Char.toLower
  String.mk cs

/-- `isSeparatorCol`: the first `topRows` rows are empty in column `c`. -/
def isSeparatorCol (mat : Matrix) (c topRows : Nat) : Bool :=
  (List.range (min topRows mat.length)).all (fun r => isEmptyCellB (getCell mat r c))

/-- The header keyword set of the parsing module. -/
def headerKeywords : List String :=
  ["姓名", "名字", "学号", "考号", "学籍", "班级", "总分", "合计", "总计", "分数",
    "排名", "名次", "扣分", "原始分", "赋分", "语文", "数学", "英语", "物理",
    "化学", "生物", "政治", "历史", "地理"]

/-- `hasKeyword`: the row's cells joined with a bar contain a keyword. -/
def hasKeywordB (row : List CellV) : Bool :=
  let s := String.intercalate "|" (row.map cellStr)
  headerKeywords.any (fun k => hInc s k)

/-- Non-empty-cell count of a row (`nonEmptyCount`). -/
def rowNonEmptyCount (row : List CellV) : Nat :=
  (row.filter (fun v => cellTrim v ≠ "")).length

/-- Title-row test: exactly one non-empty cell whose trimmed text has at
least 6 characters. -/
def looksLikeTitle (row : List CellV) : Bool :=
  match row.filter (fun v => cellTrim v ≠ "") with
  | [v] => decide (6 ≤ (strTrim (cellStr v)).length)
  | _ => false

/-- `detectHeaderStartRow` from the parsing module. -/
def detectHeaderStartRow (mat : Matrix) : Nat :=
  let limit := min 18 mat.length
  ((List.range limit).foldl (fun b r =>
    let row := mat.getD r []
    if looksLikeTitle row then b
    else
      let ne := rowNonEmptyCount row
      let kw := hasKeywordB row
      let score : Int := (ne : Int) + (if kw then 12 else 0)
      if ne < 3 ∧ ¬ kw then b
      else if b.2 < score then (r, score) else b) (0, (-1 : Int))).1

/-- The score `detectHeaderStartRow` assigns a row: its non-empty-cell
count plus 12 for a keyword hit. -/
def headerScore (mat : Matrix) (r : Nat) : Int :=
  (rowNonEmptyCount (mat.getD r []) : Int) +
    (if hasKeywordB (mat.getD r []) then 12 else 0)

/-- A row `detectHeaderStartRow` considers at all: not a title row, and
either at least 3 non-empty cells or a keyword hit. -/
def headerCand (mat : Matrix) (r : Nat) : Bool :=
  !looksLikeTitle (mat.getD r []) &&
    (decide (3 ≤ rowNonEmptyCount (mat.getD r [])) || hasKeywordB (mat.getD r []))

/-- A candidate column range of `splitBlocks` (`start`/`end`). -/
structure ColRange where
  start : Nat
  stop : Nat
  deriving Repr, DecidableEq

/-- The cut-point partition loop of `splitBlocks`.  The first argument
is structural fuel; the column counter `c` increases by one per step, so
fuel `w` from `c = 0` always reaches the `c ≥ w` exit and the
fuel-exhausted case (which mirrors that exit) is unreachable from
`splitBlocks`. -/
def buildRangesGo (cuts : List Nat) (w : Nat) : Nat → Nat → Nat → List ColRange
  | 0, start, _ => if start < w then [⟨start, w - 1⟩] else []
  | fuel + 1, start, c =>
    if c < w then
      if cuts.contains c then
        (if start < c then [⟨start, c - 1⟩] else []) ++
          buildRangesGo cuts w fuel (c + 1) (c + 1)
      else buildRangesGo cuts w fuel start (c + 1)
    else if start < w then [⟨start, w - 1⟩] else []

/-- `splitBlocks`: partition the column range at separator columns and
keep only ranges that are at least 3 columns wide. -/
def splitBlocks (view : Matrix) (headers : List String) : List ColRange :=
  let w := headers.length
  let cuts := (List.range w).filter (fun c => isSeparatorCol view c 2)
  (buildRangesGo cuts w w 0 0).filter (fun r => 3 ≤ r.stop + 1 - r.start)

/-- `makeUniqueColumns`: one column per index of the range, with key
`normalized-header ++ "__" ++ index` and a letter-annotated label. -/
def makeUniqueColumns (headers : List String) (start stop : Nat) :
    List ParsedColumn :=
  (List.range (stop + 1 - start)).map (fun i =>
    let c := start + i
    let base := headers.getD c ""
    let keyBase := if normKey base = "" then "col" else normKey base
    { key := keyBase ++ "__" ++ natStr c
      label := base ++ "（" ++ colLetter c ++ "列）"
      colIndex := c })

/-! ## Concrete inputs used by the claim theorems -/

/-- One name column and one class column. -/
def colsClassEx : List ParsedColumn :=
  [⟨"姓名__0", "姓名", 0⟩, ⟨"班级__1", "班级", 1⟩]

/-- Eleven rows, all with a name, the class cell non-empty only in the
first row (non-empty ratio 1/11 < 10%). -/
def rowsClassEx : List Row :=
  (List.range 11).map (fun i =>
    [("姓名__0", CellV.vstr "张三"),
      ("班级__1", if i = 0 then CellV.vstr "1" else CellV.vstr "")])

/-- Two 姓名-headered columns plus a 总分 column. -/
def colsTwoNames : List ParsedColumn :=
  [⟨"姓名__0", "姓名", 0⟩, ⟨"姓名__1", "姓名", 1⟩, ⟨"总分__2", "总分", 2⟩]

/-- A student-id column headed 学号. -/
def colStudentId : ParsedColumn := ⟨"学号__0", "学号", 0⟩

/-- A class-rank column headed 班级排名. -/
def colClassRank : ParsedColumn := ⟨"班级排名__2", "班级排名", 2⟩

/-- A student-id column with large integers next to an all-empty 总分
column. -/
def colsIdTotal : List ParsedColumn := [colStudentId, ⟨"总分__1", "总分", 1⟩]

/-- Eleven rows of six-digit student ids with an empty total cell. -/
def rowsIdTotal : List Row :=
  (List.range 11).map (fun i =>
    [("学号__0", CellV.vnum (100000 + (i : ℚ))), ("总分__1", CellV.vnull)])

/-- A single genuine total column with in-range scores. -/
def colsTotalOk : List ParsedColumn := [⟨"总分__0", "总分", 0⟩]

/-- Ten rows of in-range total scores. -/
def rowsTotalOk : List Row :=
  (List.range 10).map (fun i => [("总分__0", CellV.vnum (500 + (i : ℚ)))])

/-- Three rows of three distinct names, no class column. -/
def exThreeNames : ExamCfg :=
  ⟨[[("姓名__0", CellV.vstr "张三")], [("姓名__0", CellV.vstr "李四")],
    [("姓名__0", CellV.vstr "王五")]], "姓名__0", "", "", ""⟩

/-- ClassIndex voting 2 for A and 1 for B among the three names. -/
def idxSplitVote : ClassIdx := [("张三", ["A"]), ("李四", ["A"]), ("王五", ["B"])]

/-- ClassIndex voting 3 for A among the three names. -/
def idxUnanimous : ClassIdx := [("张三", ["A"]), ("李四", ["A"]), ("王五", ["A"])]

/-- A sheet whose name column repeats the same name. -/
def exRepeatedName : ExamCfg :=
  ⟨[[("姓名__0", CellV.vstr "张三")], [("姓名__0", CellV.vstr "张三")],
    [("姓名__0", CellV.vstr "张三")]], "姓名__0", "", "", ""⟩

/-- A record with override class "3" and a class column uniformly "5". -/
def exOverride : ExamCfg :=
  ⟨[[("姓名__0", CellV.vstr "张三"), ("班级__1", CellV.vstr "5")],
    [("姓名__0", CellV.vstr "李四"), ("班级__1", CellV.vstr "5")]],
    "姓名__0", "班级__1", "", "3"⟩

/-- A worksheet with no merge ranges. -/
def wsNoMerges : WS := ⟨fun _ _ => CellV.vnull, []⟩

/-- A worksheet with one 3-cell-wide merge on the top row. -/
def wsOneMerge : WS :=
  ⟨fun r c => if r = 0 ∧ c = 0 then CellV.vstr "组" else CellV.vnull,
    [⟨0, 0, 1, 2⟩]⟩

/-- A matrix with a long single-cell title row at row 0 and a dense
keyword row at row 2. -/
def matTitleThenHeader : Matrix :=
  [[CellV.vstr "某某中学成绩统计表"], [],
    [CellV.vstr "姓名", CellV.vstr "语文", CellV.vstr "数学", CellV.vstr "总分"]]

/-- A matrix consisting of a single long title row. -/
def matOnlyTitle : Matrix := [[CellV.vstr "某某中学成绩表"]]

/-- A 3-column header view with data, producing one block. -/
def viewOneBlock : Matrix :=
  [[CellV.vstr "姓名", CellV.vstr "语文", CellV.vstr "总分"],
    [CellV.vstr "张三", CellV.vnum 100, CellV.vnum 520]]

/-- The headers of `viewOneBlock`. -/
def headersOneBlock : List String := ["姓名", "语文", "总分"]

/-! ## Generic lemmas about the selection loop -/

theorem selFold_nil {α σ β : Type} [LinearOrder β] (f : α → β) (g : α → σ)
    (init : σ × β) : selFold f g [] init = init := rfl

theorem selFold_cons {α σ β : Type} [LinearOrder β] (f : α → β) (g : α → σ)
    (a : α) (t : List α) (init : σ × β) :
    selFold f g (a :: t) init =
      selFold f g t (if init.2 < f a then (g a, f a) else init) := rfl

/-- The selection loop either keeps its seed or returns some element. -/
theorem selFold_reach {α σ β : Type} [LinearOrder β] (f : α → β) (g : α → σ)
    (l : List α) (init : σ × β) :
    selFold f g l init = init ∨
      ∃ a ∈ l, selFold f g l init = (g a, f a) := by
  induction l generalizing init with
  | nil => exact Or.inl rfl
  | cons a t ih =>
    rw [selFold_cons]
    by_cases h : init.2 < f a
    · simp only [if_pos h]
      rcases ih (g a, f a) with h2 | ⟨b, hb, h2⟩
      · exact Or.inr ⟨a, List.mem_cons_self a t, h2⟩
      · exact Or.inr ⟨b, List.mem_cons_of_mem a hb, h2⟩
    · simp only [if_neg h]
      rcases ih init with h2 | ⟨b, hb, h2⟩
      · exact Or.inl h2
      · exact Or.inr ⟨b, List.mem_cons_of_mem a hb, h2⟩

/-- Full description of the selection loop: either nothing beats the seed
and the seed survives, or the winner is the first element strictly above
everything before it, with nothing after it strictly above it. -/
theorem selFold_spec {α σ β : Type} [LinearOrder β] (f : α → β) (g : α → σ)
    (l : List α) (init : σ × β) :
    ((∀ b ∈ l, f b ≤ init.2) ∧ selFold f g l init = init) ∨
      ∃ l1 a l2, l = l1 ++ a :: l2 ∧
        selFold f g l init = (g a, f a) ∧ init.2 < f a ∧
        (∀ b ∈ l1, f b < f a) ∧ (∀ b ∈ l2, f b ≤ f a) := by
  induction l generalizing init with
  | nil => exact Or.inl ⟨fun b hb => absurd hb (List.not_mem_nil b), rfl⟩
  | cons c t ih =>
    rw [selFold_cons]
    by_cases h : init.2 < f c
    · simp only [if_pos h]
      rcases ih (g c, f c) with ⟨hall, heq⟩ | ⟨l1, a, l2, hsplit, heq, hlt, h1, h2⟩
      · refine Or.inr ⟨[], c, t, rfl, heq, h, ?_, ?_⟩
        · intro b hb; cases hb
        · exact hall
      · refine Or.inr ⟨c :: l1, a, l2, by rw [hsplit, List.cons_append], heq, lt_trans h hlt, ?_, h2⟩
        intro b hb
        rcases List.mem_cons.mp hb with hb | hb
        · subst hb; exact hlt
        · exact h1 b hb
    · simp only [if_neg h]
      rcases ih init with ⟨hall, heq⟩ | ⟨l1, a, l2, hsplit, heq, hlt, h1, h2⟩
      · refine Or.inl ⟨?_, heq⟩
        intro b hb
        rcases List.mem_cons.mp hb with hb | hb
        · subst hb; exact le_of_not_lt h
        · exact hall b hb
      · refine Or.inr ⟨c :: l1, a, l2, by rw [hsplit, List.cons_append], heq, hlt, ?_, h2⟩
        intro b hb
        rcases List.mem_cons.mp hb with hb | hb
        · subst hb; exact lt_of_le_of_lt (le_of_not_lt h) hlt
        · exact h1 b hb

/-! ## Claim theorems -/

/-- Claim C1. The spec says a class column that is non-empty in fewer
than 10% of a sampled window of at least 10 named rows is treated as
absent in the produced record.  The code computes that rejection into
`fixedClassCol` but pushes the unrejected `classCol` into the record:
on a sheet where the rejection fires (11 named rows, 1 non-empty class
cell), the record still carries the class column. -/
theorem claim_C1 :
    (∀ cols rows, (mkSheetFields cols rows).classCol = importClassCol cols rows) ∧
      importFixedClassCol colsClassEx rowsClassEx = "" ∧
      (mkSheetFields colsClassEx rowsClassEx).classCol = "班级__1" := by
  refine ⟨fun cols rows => rfl, ?_, ?_⟩ <;> with_unfolding_all decide

/-- Claim C2 counterexample. A sheet with two 姓名-headered columns
produces a fatal error, but its resolved name column is the first raw
name column, not empty as the claim states. -/
theorem claim_C2_cx :
    (mkSheetFields colsTwoNames []).fatalErrors ≠ [] ∧
      (mkSheetFields colsTwoNames []).nameCol = "姓名__0" := by
  with_unfolding_all decide

/-- Claim C2, amended. With at least two raw name-header columns the
record carries a fatal error, and its resolved name column is the first
raw name-header column (non-empty), not absent. -/
theorem claim_C2 (cols : List ParsedColumn) (rows : List Row)
    (h2 : 2 ≤ (findAllNameCols cols).length)
    (hh : (findAllNameCols cols).headD "" ≠ "") :
    (mkSheetFields cols rows).fatalErrors ≠ [] ∧
      (mkSheetFields cols rows).nameCol = (findAllNameCols cols).headD "" := by
  have hname : resolveNameCol cols rows = (findAllNameCols cols).headD "" := by
    unfold resolveNameCol
    simp only [if_pos hh]
  constructor
  · show (if resolveNameCol cols rows = "" then _ else _) ≠ ([] : List String)
    rw [hname, if_neg hh, if_pos h2]
    simp
  · show resolveNameCol cols rows = _
    exact hname

/-- Claim C2 witness: the amended claim at the two-姓名-column sheet. -/
theorem claim_C2_witness :
    2 ≤ (findAllNameCols colsTwoNames).length ∧
      (findAllNameCols colsTwoNames).headD "" ≠ "" ∧
      ((mkSheetFields colsTwoNames []).fatalErrors ≠ [] ∧
        (mkSheetFields colsTwoNames []).nameCol =
          (findAllNameCols colsTwoNames).headD "") :=
  ⟨by decide, by decide, claim_C2 colsTwoNames [] (by decide) (by decide)⟩

/-- Claim C3 counterexample. A column headered 学号 (student id) is an
identity column, yet its total score is −50 on an empty sample, not the
hard-exclude −9999: the exclusion list has no student-id keyword. -/
theorem claim_C3_cx :
    scoreTotal [] colStudentId = -50 ∧ scoreTotal [] colStudentId ≠ -9999 := by
  constructor <;> with_unfolding_all decide

/-- Claim C3, amended. Every column whose normalized header looks
rank-like, or is a class, exam-number or name header (`totalMetaLike` —
student-id headers are not in the exclusion list), scores the hard
exclude −9999 in total-column scoring. -/
theorem claim_C3 (rows : List Row) (c : ParsedColumn)
    (h : totalRankLike (normalizeHeader c.label) = true ∨
      totalMetaLike (normalizeHeader c.label) = true) :
    scoreTotal rows c = -9999 := by
  unfold scoreTotal
  rcases h with h | h
  · simp only [h, if_true]
  · by_cases hr : totalRankLike (normalizeHeader c.label)
    · simp only [hr, if_true]
    · simp only [hr, h, if_true, if_false, Bool.false_eq_true]

/-- Claim C3 witness: the class-rank column 班级排名 scores −9999. -/
theorem claim_C3_witness :
    totalRankLike (normalizeHeader colClassRank.label) = true ∧
      scoreTotal [] colClassRank = -9999 :=
  ⟨by decide, claim_C3 [] colClassRank (Or.inl (by decide))⟩

/-- Claim C4. The total-column guesser returns a column key only when
that column's score is at least 10; on a block with a large-integer
student-id column and an all-empty 总分 column it assigns no total
column at all. -/
theorem claim_C4 :
    (∀ rows cols, guessTotalCol rows cols ≠ "" →
      ∃ c ∈ cols, guessTotalCol rows cols = c.key ∧ 10 ≤ scoreTotal rows c) ∧
      guessTotalCol rowsIdTotal colsIdTotal = "" := by
  constructor
  · intro rows cols hne
    unfold guessTotalCol at hne ⊢
    rcases selFold_reach (scoreTotal rows) (fun c => c.key) cols
        ("", (-(10 ^ 9) : ℚ)) with h | ⟨a, ha, h⟩
    · rw [h] at hne
      norm_num at hne
    · rw [h] at hne ⊢
      by_cases h10 : scoreTotal rows a < 10
      · rw [if_pos h10] at hne
        simp at hne
      · rw [if_neg h10]
        exact ⟨a, ha, rfl, le_of_not_lt h10⟩
  · with_unfolding_all decide

/-- Claim C4 witness: a genuine total column is returned, and the
general statement applies to it. -/
theorem claim_C4_witness :
    guessTotalCol rowsTotalOk colsTotalOk ≠ "" ∧
      ∃ c ∈ colsTotalOk, guessTotalCol rowsTotalOk colsTotalOk = c.key ∧
        10 ≤ scoreTotal rowsTotalOk c :=
  ⟨by with_unfolding_all decide,
    claim_C4.1 rowsTotalOk colsTotalOk (by with_unfolding_all decide)⟩

/-- The hit count of the voting loop is the number of sampled names with
at least one known class. -/
theorem tally_hit (idx : ClassIdx) :
    ∀ (names : List String) (st : Nat × List (String × Nat)),
      (names.foldl (tallyStep idx) st).1 =
        st.1 + names.countP (fun n => !(lookupClasses idx n).isEmpty) := by
  intro names
  induction names with
  | nil => intro st; simp
  | cons n t ih =>
    intro st
    rw [List.foldl_cons, List.countP_cons, ih]
    unfold tallyStep
    by_cases hc : lookupClasses idx n = []
    · simp [hc]
    · have : (lookupClasses idx n).isEmpty = false := by
        cases h : lookupClasses idx n with
        | nil => exact absurd h hc
        | cons a l => rfl
      simp [hc, this]
      omega

/-- Adding a vote never produces the empty vote map. -/
theorem voteAdd_ne (votes : List (String × Nat)) (c : String) :
    voteAdd votes c ≠ [] := by
  unfold voteAdd
  by_cases h : votes.any (fun p => p.1 == c)
  · rw [if_pos h]
    intro hmap
    rw [List.map_eq_nil_iff] at hmap
    subst hmap
    simp at h
  · rw [if_neg h]
    simp

/-- Folding votes over a non-empty class list (or onto a non-empty map)
yields a non-empty vote map. -/
theorem foldl_voteAdd_ne :
    ∀ (classes : List String) (votes : List (String × Nat)),
      votes ≠ [] ∨ classes ≠ [] → classes.foldl voteAdd votes ≠ [] := by
  intro classes
  induction classes with
  | nil =>
    intro votes h
    rcases h with h | h
    · exact h
    · exact absurd rfl h
  | cons c t ih =>
    intro votes _
    rw [List.foldl_cons]
    exact ih (voteAdd votes c) (Or.inl (voteAdd_ne votes c))

/-- If the voting loop ends with no votes, no name contributed. -/
theorem tally_votes_nil (idx : ClassIdx) :
    ∀ (names : List String) (st : Nat × List (String × Nat)),
      (names.foldl (tallyStep idx) st).2 = [] →
        st.2 = [] ∧ (names.foldl (tallyStep idx) st).1 = st.1 := by
  intro names
  induction names with
  | nil => intro st h; exact ⟨h, rfl⟩
  | cons n t ih =>
    intro st h
    rw [List.foldl_cons] at h ⊢
    by_cases hc : lookupClasses idx n = []
    · have hstep : tallyStep idx st n = st := by unfold tallyStep; simp [hc]
      rw [hstep] at h ⊢
      exact ih st h
    · have hstep : tallyStep idx st n =
          (st.1 + 1, (lookupClasses idx n).foldl voteAdd st.2) := by
        unfold tallyStep; simp [hc]
      rw [hstep] at h
      have h2 := (ih _ h).1
      exact absurd h2 (foldl_voteAdd_ne _ _ (Or.inr hc))

/-- Every count in a vote map built by the voting loop is at least 1. -/
theorem tally_votes_pos (idx : ClassIdx) :
    ∀ (names : List String) (st : Nat × List (String × Nat)),
      (∀ p ∈ st.2, 1 ≤ p.2) →
        ∀ p ∈ (names.foldl (tallyStep idx) st).2, 1 ≤ p.2 := by
  have hadd : ∀ (votes : List (String × Nat)) (c : String),
      (∀ p ∈ votes, 1 ≤ p.2) → ∀ p ∈ voteAdd votes c, 1 ≤ p.2 := by
    intro votes c hv p hp
    unfold voteAdd at hp
    by_cases h : votes.any (fun q => q.1 == c)
    · rw [if_pos h] at hp
      rcases List.mem_map.mp hp with ⟨q, hq, hpq⟩
      by_cases hqc : q.1 == c
      · rw [if_pos hqc] at hpq
        subst hpq
        omega
      · rw [if_neg hqc] at hpq
        subst hpq
        exact hv q hq
    · rw [if_neg h] at hp
      rcases List.mem_append.mp hp with hp | hp
      · exact hv p hp
      · rcases List.mem_singleton.mp hp with rfl
        exact le_refl 1
  have hfold : ∀ (classes : List String) (votes : List (String × Nat)),
      (∀ p ∈ votes, 1 ≤ p.2) → ∀ p ∈ classes.foldl voteAdd votes, 1 ≤ p.2 := by
    intro classes
    induction classes with
    | nil => intro votes hv; exact hv
    | cons c t ih =>
      intro votes hv
      rw [List.foldl_cons]
      exact ih (voteAdd votes c) (hadd votes c hv)
  intro names
  induction names with
  | nil => intro st hst; exact hst
  | cons n t ih =>
    intro st hst
    rw [List.foldl_cons]
    refine ih (tallyStep idx st n) ?_
    unfold tallyStep
    by_cases hc : lookupClasses idx n = []
    · simpa [hc] using hst
    · simpa [hc] using hfold _ _ hst

/-- Claim C5. On a needs-inference sheet the inferred class is "unknown"
when fewer than 3 sampled names contributed; otherwise a maximally-voted
class exists and the result follows the ratio thresholds: "school-wide"
for sheets of at least 150 rows with ratio below 0.85, the best class
for ratio at least 0.7, "unknown" otherwise.  Concretely, 3 contributors
voting [2,1] yield "unknown" and [3,0] yield the best class. -/
theorem claim_C5 :
    (∀ (ex : ExamCfg) (idx : ClassIdx), hasClassData ex = false →
      (((sampleNames ex).countP (fun n => !(lookupClasses idx n).isEmpty) < 3 →
          inferSheetClass ex idx = "未知班级") ∧
        (3 ≤ (sampleNames ex).countP (fun n => !(lookupClasses idx n).isEmpty) →
          ∃ bc ∈ (tallyVotes (sampleNames ex) idx).2,
            (∀ p ∈ (tallyVotes (sampleNames ex) idx).2, p.2 ≤ bc.2) ∧
            inferSheetClass ex idx =
              (if 150 ≤ ex.rows.length ∧
                  ((bc.2 : ℚ) /
                    (((sampleNames ex).countP
                      (fun n => !(lookupClasses idx n).isEmpty) : ℕ) : ℚ)) <
                    85 / 100 then "全校"
              else if 7 / 10 ≤
                  ((bc.2 : ℚ) /
                    (((sampleNames ex).countP
                      (fun n => !(lookupClasses idx n).isEmpty) : ℕ) : ℚ)) then
                bc.1
              else "未知班级")))) ∧
      inferSheetClass exThreeNames idxSplitVote = "未知班级" ∧
      inferSheetClass exThreeNames idxUnanimous = "A" := by
  refine ⟨?_, by with_unfolding_all decide, by with_unfolding_all decide⟩
  intro ex idx hcd
  by_cases hn : ex.nameCol = ""
  · have hres : inferSheetClass ex idx = "未知班级" := by
      unfold inferSheetClass
      simp [hcd, hn]
    have hsamp : sampleNames ex = [] := by unfold sampleNames; simp [hn]
    refine ⟨fun _ => hres, fun h3 => ?_⟩
    rw [hsamp] at h3
    simp at h3
  · have hsamp : sampleNames ex = takeNames ex.nameCol ex.rows 6 := by
      unfold sampleNames; simp [hn]
    have hhit : (tallyVotes (sampleNames ex) idx).1 =
        (sampleNames ex).countP (fun n => !(lookupClasses idx n).isEmpty) := by
      unfold tallyVotes
      simpa using tally_hit idx (sampleNames ex) (0, [])
    by_cases hshort : (takeNames ex.nameCol ex.rows 6).length < 3
    · have hres : inferSheetClass ex idx = "未知班级" := by
        unfold inferSheetClass
        simp [hcd, hn, hshort]
      have hle : (sampleNames ex).countP
          (fun n => !(lookupClasses idx n).isEmpty) < 3 :=
        lt_of_le_of_lt (by rw [hsamp]; exact List.countP_le_length _) hshort
      exact ⟨fun _ => hres, fun h3 => absurd h3 (not_le_of_lt hle)⟩
    · by_cases hlow : (tallyVotes (takeNames ex.nameCol ex.rows 6) idx).1 < 3
      · have hres : inferSheetClass ex idx = "未知班级" := by
          unfold inferSheetClass
          simp [hcd, hn, hshort, hlow]
        have hle : (sampleNames ex).countP
            (fun n => !(lookupClasses idx n).isEmpty) < 3 := by
          rw [← hhit, hsamp]; exact hlow
        exact ⟨fun _ => hres, fun h3 => absurd h3 (not_le_of_lt hle)⟩
      · have h3 : 3 ≤ (tallyVotes (takeNames ex.nameCol ex.rows 6) idx).1 :=
          not_lt.mp hlow
        have hvne : (tallyVotes (takeNames ex.nameCol ex.rows 6) idx).2 ≠ [] := by
          intro hnil
          have := (tally_votes_nil idx (takeNames ex.nameCol ex.rows 6) (0, []) hnil).2
          unfold tallyVotes at h3
          omega
        have hpos : ∀ p ∈ (tallyVotes (takeNames ex.nameCol ex.rows 6) idx).2,
            1 ≤ p.2 :=
          tally_votes_pos idx _ (0, []) (by intro p hp; cases hp)
        rcases selFold_spec (fun p => ((p.2 : Nat) : Int)) (fun p => p.1)
            (tallyVotes (takeNames ex.nameCol ex.rows 6) idx).2
            ("", (-1 : Int)) with ⟨hall, _⟩ | ⟨l1, a, l2, hsplit, heq, _, h1, h2⟩
        · rcases List.exists_mem_of_ne_nil _ hvne with ⟨b, hb⟩
          have hb1 := hpos b hb
          have hb2 := hall b hb
          simp at hb2
          omega
        · have hamem : a ∈ (tallyVotes (takeNames ex.nameCol ex.rows 6) idx).2 := by
            rw [hsplit]
            exact List.mem_append_right _ (List.mem_cons_self a l2)
          have hmax : ∀ p ∈ (tallyVotes (takeNames ex.nameCol ex.rows 6) idx).2,
              p.2 ≤ a.2 := by
            intro p hp
            rw [hsplit] at hp
            rcases List.mem_append.mp hp with hp | hp
            · have := h1 p hp
              simp at this
              omega
            · rcases List.mem_cons.mp hp with rfl | hp
              · exact le_refl _
              · have := h2 p hp
                simp at this
                omega
          have hres : inferSheetClass ex idx =
              (if 150 ≤ ex.rows.length ∧
                  ((a.2 : ℚ) /
                    (((tallyVotes (takeNames ex.nameCol ex.rows 6) idx).1 : ℕ) : ℚ)) <
                    85 / 100 then "全校"
              else if 7 / 10 ≤
                  ((a.2 : ℚ) /
                    (((tallyVotes (takeNames ex.nameCol ex.rows 6) idx).1 : ℕ) : ℚ)) then
                a.1
              else "未知班级") := by
            unfold inferSheetClass
            rw [if_neg (by simp [hcd]), if_neg hn,
              if_neg (not_lt.mpr (not_lt.mp hshort)),
              if_neg (by push_neg; exact ⟨not_lt.mp hlow, hvne⟩)]
            have hbest : selFold (fun p => ((p.2 : Nat) : Int)) (fun p => p.1)
                (tallyVotes (takeNames ex.nameCol ex.rows 6) idx).2
                ("", (-1 : Int)) = (a.1, (a.2 : Int)) := heq
            rw [hbest]
            norm_num
          refine ⟨fun hlt => ?_, fun _ => ?_⟩
          · rw [← hhit, hsamp] at hlt
            omega
          · refine ⟨a, by rw [hsamp]; exact hamem, ?_, ?_⟩
            · rw [hsamp]; exact hmax
            · rw [hres, ← hhit, hsamp]

/-- Claim C5 witness: the general statement applied with an empty
ClassIndex, where no sampled name contributes. -/
theorem claim_C5_witness :
    hasClassData exThreeNames = false ∧
      (sampleNames exThreeNames).countP
        (fun n => !(lookupClasses ([] : ClassIdx) n).isEmpty) < 3 ∧
      inferSheetClass exThreeNames ([] : ClassIdx) = "未知班级" :=
  ⟨by with_unfolding_all decide, by with_unfolding_all decide,
    (claim_C5.1 exThreeNames [] (by with_unfolding_all decide)).1
      (by with_unfolding_all decide)⟩

/-- Step equation of the name-sampling loop. -/
theorem takeNames_cons (key : String) (r : Row) (t : List Row) (need : Nat) :
    takeNames key (r :: t) need =
      (if cellTrim (rowGet r key) = "" then takeNames key t need
      else if need ≤ 1 then [cellTrim (rowGet r key)]
      else cellTrim (rowGet r key) :: takeNames key t (need - 1)) := rfl

/-- The name-sampling loop takes the first `need` non-empty trimmed name
cells in row order, duplicates included. -/
theorem takeNames_eq (key : String) :
    ∀ (rows : List Row) (need : Nat), 1 ≤ need →
      takeNames key rows need =
        ((rows.map (fun r => cellTrim (rowGet r key))).filter
          (fun s => s ≠ "")).take need := by
  intro rows
  induction rows with
  | nil => intro need _; simp [takeNames]
  | cons r t ih =>
    intro need hneed
    obtain ⟨m, rfl⟩ : ∃ m, need = m + 1 := ⟨need - 1, by omega⟩
    rw [takeNames_cons]
    by_cases hv : cellTrim (rowGet r key) = ""
    · rw [if_pos hv, ih (m + 1) hneed]
      congr 1
      rw [List.map_cons, List.filter_cons]
      simp [hv]
    · have hfil : (((r :: t).map (fun rr => cellTrim (rowGet rr key))).filter
          (fun s => s ≠ "")) =
          cellTrim (rowGet r key) ::
            ((t.map (fun rr => cellTrim (rowGet rr key))).filter
              (fun s => s ≠ "")) := by
        rw [List.map_cons, List.filter_cons]
        simp [hv]
      rw [if_neg hv, hfil]
      by_cases h1 : m = 0
      · subst h1
        rw [if_pos (by omega)]
        rw [List.take_succ_cons, List.take_zero]
      · rw [if_neg (by omega : ¬ m + 1 ≤ 1)]
        simp only [Nat.add_sub_cancel]
        rw [ih m (by omega), List.take_succ_cons]

/-- Claim C6 counterexample. A name column repeating 张三 samples the
same name three times: the sample is not duplicate-free as claimed. -/
theorem claim_C6_cx :
    sampleNames exRepeatedName = ["张三", "张三", "张三"] ∧
      ¬ (sampleNames exRepeatedName).Nodup := by
  constructor <;> with_unfolding_all decide

/-- Claim C6, amended. The names sampled for class voting are the first
(up to 6) non-empty values of the name column in row order, duplicates
retained — a repeated name occupies several sample slots. -/
theorem claim_C6 (ex : ExamCfg) :
    sampleNames ex =
      (if ex.nameCol = "" then []
      else ((ex.rows.map (fun r => cellTrim (rowGet r ex.nameCol))).filter
        (fun s => s ≠ "")).take 6) := by
  unfold sampleNames
  by_cases hn : ex.nameCol = ""
  · simp [hn]
  · rw [if_neg hn, if_neg hn, takeNames_eq ex.nameCol ex.rows 6 (by omega)]

/-- The accumulator is a prefix of the first-appearance dedup fold. -/
theorem firstDedupFrom_prefix :
    ∀ (vals acc : List String), acc <+: firstDedupFrom acc vals := by
  intro vals
  induction vals with
  | nil => intro acc; exact List.prefix_refl acc
  | cons v t ih =>
    intro acc
    unfold firstDedupFrom at ih ⊢
    rw [List.foldl_cons]
    by_cases h : acc.contains v
    · rw [if_pos h]; exact ih acc
    · rw [if_neg h]
      exact List.IsPrefix.trans (List.prefix_append acc [v]) (ih (acc ++ [v]))

/-- Step equation of the distinct-class sampling loop. -/
theorem classSample_cons (key : String) (r : Row) (t : List Row)
    (acc : List String) :
    classSample key (r :: t) acc =
      (if cellTrim (rowGet r key) = "" then classSample key t acc
      else
        if 2 ≤ (if acc.contains (cellTrim (rowGet r key)) then acc
            else acc ++ [cellTrim (rowGet r key)]).length then
          (if acc.contains (cellTrim (rowGet r key)) then acc
            else acc ++ [cellTrim (rowGet r key)])
        else classSample key t
          (if acc.contains (cellTrim (rowGet r key)) then acc
            else acc ++ [cellTrim (rowGet r key)])) := rfl

/-- The distinct-class sampling loop computes the 2-truncated
first-appearance deduplication of the non-empty class values. -/
theorem classSample_eq (key : String) :
    ∀ (rows : List Row) (acc : List String), acc.length ≤ 1 →
      classSample key rows acc =
        (firstDedupFrom acc ((rows.map (fun r => cellTrim (rowGet r key))).filter
          (fun s => s ≠ ""))).take 2 := by
  intro rows
  induction rows with
  | nil =>
    intro acc hacc
    show acc = (firstDedupFrom acc []).take 2
    unfold firstDedupFrom
    rw [List.foldl_nil]
    exact (List.take_of_length_le (by omega)).symm
  | cons r t ih =>
    intro acc hacc
    rw [classSample_cons]
    by_cases hv : cellTrim (rowGet r key) = ""
    · rw [if_pos hv, ih acc hacc]
      congr 2
      rw [List.map_cons, List.filter_cons]
      simp [hv]
    · have hstep : firstDedupFrom acc
          (((r :: t).map (fun rr => cellTrim (rowGet rr key))).filter
            (fun s => s ≠ "")) =
          firstDedupFrom
            (if acc.contains (cellTrim (rowGet r key)) then acc
              else acc ++ [cellTrim (rowGet r key)])
            ((t.map (fun rr => cellTrim (rowGet rr key))).filter
              (fun s => s ≠ "")) := by
        have hd : (decide (cellTrim (rowGet r key) ≠ "")) = true :=
          decide_eq_true hv
        rw [List.map_cons, List.filter_cons, hd, if_pos rfl]
        unfold firstDedupFrom
        rw [List.foldl_cons]
      rw [if_neg hv]
      set acc2 := if acc.contains (cellTrim (rowGet r key)) then acc
        else acc ++ [cellTrim (rowGet r key)] with hacc2
      by_cases h2 : 2 ≤ acc2.length
      · rw [if_pos h2, hstep]
        have hpre := firstDedupFrom_prefix
          ((t.map (fun rr => cellTrim (rowGet rr key))).filter (fun s => s ≠ ""))
          acc2
        rcases hpre with ⟨tail, htail⟩
        have hlen2 : acc2.length = 2 := by
          by_cases hc : acc.contains (cellTrim (rowGet r key))
          · rw [hacc2, if_pos hc] at h2 ⊢
            omega
          · rw [hacc2, if_neg hc] at h2 ⊢
            rw [List.length_append] at h2 ⊢
            simp at h2 ⊢
            omega
        rw [← htail, ← hlen2, List.take_left]
      · rw [if_neg h2, hstep, ih acc2 (by omega)]

/-- Claim C7. Effective class resolution follows the strict precedence:
a non-empty trimmed override wins; otherwise, with a class column
present, the distinct sampled class values decide (0 distinct: unknown,
1 distinct: that value, 2 or more: school-wide); otherwise the inferred
class, else unknown.  Concretely an override of "3" beats a class column
uniformly equal to "5". -/
theorem claim_C7 :
    (∀ ex : ExamCfg,
      (strTrim ex.overrideClass ≠ "" →
        getEffectiveClass ex = strTrim ex.overrideClass) ∧
      (strTrim ex.overrideClass = "" → ex.classCol ≠ "" →
        ((firstDedup (((ex.rows.take 300).map
            (fun r => cellTrim (rowGet r ex.classCol))).filter
            (fun s => s ≠ ""))).length = 0 →
          getEffectiveClass ex = "未知班级") ∧
        ((firstDedup (((ex.rows.take 300).map
            (fun r => cellTrim (rowGet r ex.classCol))).filter
            (fun s => s ≠ ""))).length = 1 →
          getEffectiveClass ex =
            (firstDedup (((ex.rows.take 300).map
              (fun r => cellTrim (rowGet r ex.classCol))).filter
              (fun s => s ≠ ""))).headD "") ∧
        (2 ≤ (firstDedup (((ex.rows.take 300).map
            (fun r => cellTrim (rowGet r ex.classCol))).filter
            (fun s => s ≠ ""))).length →
          getEffectiveClass ex = "全校")) ∧
      (strTrim ex.overrideClass = "" → ex.classCol = "" →
        getEffectiveClass ex =
          (if ex.inferredClass ≠ "" then ex.inferredClass else "未知班级"))) ∧
      getEffectiveClass exOverride = "3" := by
  refine ⟨?_, by with_unfolding_all decide⟩
  intro ex
  refine ⟨?_, ?_, ?_⟩
  · intro ho
    unfold getEffectiveClass
    rw [if_pos ho]
  · intro ho hc
    have hset : classSample ex.classCol (ex.rows.take 300) [] =
        (firstDedup (((ex.rows.take 300).map
          (fun r => cellTrim (rowGet r ex.classCol))).filter
          (fun s => s ≠ ""))).take 2 :=
      classSample_eq ex.classCol (ex.rows.take 300) [] (by simp)
    set d := firstDedup (((ex.rows.take 300).map
      (fun r => cellTrim (rowGet r ex.classCol))).filter (fun s => s ≠ ""))
      with hd
    have hres : getEffectiveClass ex =
        (if (d.take 2).length = 1 then (d.take 2).headD ""
        else if 2 ≤ (d.take 2).length then "全校" else "未知班级") := by
      unfold getEffectiveClass
      rw [if_neg (by simpa using ho), if_pos hc, hset]
    refine ⟨?_, ?_, ?_⟩
    · intro h0
      rw [hres]
      have : d = [] := List.length_eq_zero.mp h0
      simp [this]
    · intro h1
      rw [hres]
      have htake : d.take 2 = d := List.take_of_length_le (by omega)
      rw [htake, if_pos h1]
    · intro h2
      rw [hres]
      have htake : (d.take 2).length = 2 := by
        rw [List.length_take]
        omega
      rw [if_neg (by omega), if_pos (by omega)]
  · intro ho hc
    unfold getEffectiveClass
    rw [if_neg (by simpa using ho), if_neg (by simpa using hc)]

/-- Claim C7 witness: the general statement at a no-override record whose
class column uniformly reads "5" resolves to "5". -/
theorem claim_C7_witness :
    strTrim (ExamCfg.overrideClass
      { exOverride with overrideClass := "" }) = "" ∧
    ExamCfg.classCol { exOverride with overrideClass := "" } ≠ "" ∧
    getEffectiveClass { exOverride with overrideClass := "" } = "5" := by
  refine ⟨by with_unfolding_all decide, by with_unfolding_all decide, ?_⟩
  have h := ((claim_C7.1 { exOverride with overrideClass := "" }).2.1
    (by with_unfolding_all decide) (by with_unfolding_all decide)).2.1
    (by with_unfolding_all decide)
  rw [h]
  with_unfolding_all decide

/-- A cell failing the blank test has non-blank trimmed text. -/
theorem cellTrim_ne_of_not_empty (v : CellV) (h : ¬ isEmptyCellB v = true) :
    cellTrim v ≠ "" := by
  intro he
  apply h
  unfold isEmptyCellB
  rw [he]
  rfl

/-- A cell passing the blank test has blank trimmed text. -/
theorem cellTrim_eq_of_empty (v : CellV) (h : isEmptyCellB v = true) :
    cellTrim v = "" := by
  unfold isEmptyCellB at h
  exact eq_of_beq h

/-- Writing position `c` makes it read back the written value. -/
theorem setPad_getD_self (row : List CellV) (c : Nat) (v : CellV) :
    (setPad row c v).getD c .vnull = v := by
  unfold setPad
  by_cases h : c < row.length
  · rw [if_pos h, List.getD_eq_getElem _ _ (by rw [List.length_set]; exact h),
      List.getElem_set_self]
  · rw [if_neg h]
    push_neg at h
    rw [List.append_assoc,
      List.getD_append_right _ _ _ _ h,
      List.getD_append_right _ _ _ _ (by rw [List.length_replicate])]
    simp

/-- Writing position `c` leaves every other position unchanged. -/
theorem setPad_getD_ne (row : List CellV) (c : Nat) (v : CellV) (p : Nat)
    (hne : p ≠ c) : (setPad row c v).getD p .vnull = row.getD p .vnull := by
  unfold setPad
  by_cases h : c < row.length
  · rw [if_pos h]
    rcases lt_or_ge p row.length with hp | hp
    · rw [List.getD_eq_getElem _ _ (by rw [List.length_set]; exact hp),
        List.getD_eq_getElem _ _ hp, List.getElem_set_ne (by omega)]
    · rw [List.getD_eq_default _ _ (by rw [List.length_set]; exact hp),
        List.getD_eq_default _ _ hp]
  · rw [if_neg h]
    push_neg at h
    rw [List.append_assoc]
    rcases lt_or_ge p row.length with hp | hp
    · rw [List.getD_append _ _ _ _ hp]
    · rw [List.getD_append_right _ _ _ _ hp]
      rcases lt_or_ge p c with hpc | hpc
      · rw [List.getD_append _ _ _ _ (by rw [List.length_replicate]; omega),
          List.getD_eq_getElem _ _ (by rw [List.length_replicate]; omega),
          List.getElem_replicate, List.getD_eq_default _ _ hp]
      · rw [List.getD_append_right _ _ _ _ (by rw [List.length_replicate]; omega),
          List.getD_eq_default _ _ (by simp [List.length_replicate]; omega),
          List.getD_eq_default _ _ hp]

/-- Writing a row within bounds preserves the row count. -/
theorem matSetPad_length (mat : Matrix) (r : Nat) (row : List CellV)
    (h : r < mat.length) : (matSetPad mat r row).length = mat.length := by
  unfold matSetPad
  rw [if_pos h, List.length_set]

/-- Writing a row within bounds makes it read back. -/
theorem matSetPad_getD_self (mat : Matrix) (r : Nat) (row : List CellV)
    (h : r < mat.length) : (matSetPad mat r row).getD r [] = row := by
  unfold matSetPad
  rw [if_pos h, List.getD_eq_getElem _ _ (by rw [List.length_set]; exact h),
    List.getElem_set_self]

/-- Writing a row within bounds leaves other rows unchanged. -/
theorem matSetPad_getD_ne (mat : Matrix) (r : Nat) (row : List CellV)
    (h : r < mat.length) (p : Nat) (hne : p ≠ r) :
    (matSetPad mat r row).getD p [] = mat.getD p [] := by
  unfold matSetPad
  rw [if_pos h]
  rcases lt_or_ge p mat.length with hp | hp
  · rw [List.getD_eq_getElem _ _ (by rw [List.length_set]; exact hp),
      List.getD_eq_getElem _ _ hp, List.getElem_set_ne (by omega)]
  · rw [List.getD_eq_default _ _ (by rw [List.length_set]; exact hp),
      List.getD_eq_default _ _ hp]

/-- A fill step never changes a non-blank cell. -/
theorem fillStep_keep (tl : CellV) (c1 : Nat) (rw : List CellV) (i : Nat)
    (p : Nat) (hne : cellTrim (rw.getD p .vnull) ≠ "") :
    (fillStep tl c1 rw i).getD p .vnull = rw.getD p .vnull := by
  unfold fillStep
  by_cases h : isEmptyCellB (rw.getD (c1 + i) .vnull)
  · rw [if_pos h]
    have hpi : p ≠ c1 + i := by
      intro hp
      subst hp
      exact hne (cellTrim_eq_of_empty _ h)
    exact setPad_getD_ne rw (c1 + i) tl p hpi
  · rw [if_neg h]

/-- The fill loop never changes a non-blank cell. -/
theorem fillFold_keep (tl : CellV) (c1 : Nat) :
    ∀ (n : Nat) (row : List CellV) (p : Nat),
      cellTrim (row.getD p .vnull) ≠ "" →
        ((List.range n).foldl (fillStep tl c1) row).getD p .vnull =
          row.getD p .vnull := by
  intro n
  induction n with
  | zero => intro row p _; rfl
  | succ k ih =>
    intro row p hp
    rw [List.range_succ, List.foldl_append, List.foldl_cons, List.foldl_nil]
    have hkeep := ih row p hp
    rw [fillStep_keep tl c1 _ k p (by rw [hkeep]; exact hp), hkeep]

/-- After the fill loop over `n` columns with a non-blank fill value,
every covered cell is non-blank. -/
theorem fillFold_filled (tl : CellV) (c1 : Nat)
    (htl : cellTrim tl ≠ "") :
    ∀ (n : Nat) (row : List CellV) (p : Nat), c1 ≤ p → p < c1 + n →
      cellTrim (((List.range n).foldl (fillStep tl c1) row).getD p .vnull) ≠ "" := by
  intro n
  induction n with
  | zero => intro row p h1 h2; omega
  | succ k ih =>
    intro row p h1 h2
    rw [List.range_succ, List.foldl_append, List.foldl_cons, List.foldl_nil]
    by_cases hk : p < c1 + k
    · have hne := ih row p h1 hk
      rw [fillStep_keep tl c1 _ k p hne]
      exact hne
    · have hp : p = c1 + k := by omega
      subst hp
      unfold fillStep
      split
      · rw [setPad_getD_self]
        exact htl
      · next h => exact cellTrim_ne_of_not_empty _ h

/-- The whole fill of a row never changes a non-blank cell. -/
theorem fillRow_keep (row : List CellV) (tl : CellV) (c1 c2 : Nat) (p : Nat)
    (hp : cellTrim (row.getD p .vnull) ≠ "") :
    (fillRow row tl c1 c2).getD p .vnull = row.getD p .vnull :=
  fillFold_keep tl c1 (c2 + 1 - c1) row p hp

/-- The whole fill of a row makes every covered cell non-blank. -/
theorem fillRow_filled (row : List CellV) (tl : CellV) (c1 c2 : Nat)
    (htl : cellTrim tl ≠ "") (p : Nat) (h1 : c1 ≤ p) (h2 : p ≤ c2) :
    cellTrim ((fillRow row tl c1 c2).getD p .vnull) ≠ "" :=
  fillFold_filled tl c1 htl (c2 + 1 - c1) row p h1 (by omega)

/-- One row step of a merge preserves the row count. -/
theorem mergeRowStep_length (tl : CellV) (sr sc ec : Nat) (mm : Matrix)
    (i : Nat) (h : sr + i < mm.length) :
    (mergeRowStep tl sr sc ec mm i).length = mm.length :=
  matSetPad_length mm (sr + i) _ h

/-- One row step of a merge never changes a non-blank cell. -/
theorem mergeRowStep_keep (tl : CellV) (sr sc ec : Nat) (mm : Matrix)
    (i : Nat) (h : sr + i < mm.length) (r c : Nat)
    (hne : cellTrim (getCell mm r c) ≠ "") :
    getCell (mergeRowStep tl sr sc ec mm i) r c = getCell mm r c := by
  unfold mergeRowStep getCell
  by_cases hr : r = sr + i
  · subst hr
    rw [matSetPad_getD_self mm (sr + i) _ h]
    exact fillRow_keep (mm.getD (sr + i) []) tl sc ec c hne
  · rw [matSetPad_getD_ne mm (sr + i) _ h r hr]

/-- One row step of a merge fills its whole covered column range. -/
theorem mergeRowStep_filled (tl : CellV) (sr sc ec : Nat) (mm : Matrix)
    (i : Nat) (h : sr + i < mm.length) (htl : cellTrim tl ≠ "") (c : Nat)
    (hc1 : sc ≤ c) (hc2 : c ≤ ec) :
    cellTrim (getCell (mergeRowStep tl sr sc ec mm i) (sr + i) c) ≠ "" := by
  unfold mergeRowStep getCell
  rw [matSetPad_getD_self mm (sr + i) _ h]
  exact fillRow_filled (mm.getD (sr + i) []) tl sc ec htl c hc1 hc2

/-- The per-merge row loop preserves the row count. -/
theorem mergeFold_length (tl : CellV) (sr sc ec : Nat) :
    ∀ (n : Nat) (mm : Matrix), sr + n ≤ mm.length →
      ((List.range n).foldl (mergeRowStep tl sr sc ec) mm).length = mm.length := by
  intro n
  induction n with
  | zero => intro mm _; rfl
  | succ k ih =>
    intro mm hb
    rw [List.range_succ, List.foldl_append, List.foldl_cons, List.foldl_nil]
    have hk := ih mm (by omega)
    rw [mergeRowStep_length _ _ _ _ _ _ (by omega), hk]

/-- The per-merge row loop never changes a non-blank cell. -/
theorem mergeFold_keep (tl : CellV) (sr sc ec : Nat) :
    ∀ (n : Nat) (mm : Matrix), sr + n ≤ mm.length → ∀ (r c : Nat),
      cellTrim (getCell mm r c) ≠ "" →
      getCell ((List.range n).foldl (mergeRowStep tl sr sc ec) mm) r c =
        getCell mm r c := by
  intro n
  induction n with
  | zero => intro mm _ r c _; rfl
  | succ k ih =>
    intro mm hb r c hne
    rw [List.range_succ, List.foldl_append, List.foldl_cons, List.foldl_nil]
    have hk := ih mm (by omega) r c hne
    have hlen := mergeFold_length tl sr sc ec k mm (by omega)
    rw [mergeRowStep_keep _ _ _ _ _ _ (by omega) r c (by rw [hk]; exact hne), hk]

/-- After the per-merge row loop, every covered cell is non-blank. -/
theorem mergeFold_filled (tl : CellV) (sr sc ec : Nat)
    (htl : cellTrim tl ≠ "") :
    ∀ (n : Nat) (mm : Matrix), sr + n ≤ mm.length →
      ∀ j, j < n → ∀ c, sc ≤ c → c ≤ ec →
      cellTrim
        (getCell ((List.range n).foldl (mergeRowStep tl sr sc ec) mm)
          (sr + j) c) ≠ "" := by
  intro n
  induction n with
  | zero => intro mm _ j hj; omega
  | succ k ih =>
    intro mm hb j hj c hc1 hc2
    rw [List.range_succ, List.foldl_append, List.foldl_cons, List.foldl_nil]
    have hlen := mergeFold_length tl sr sc ec k mm (by omega)
    by_cases hjk : j < k
    · have hne := ih mm (by omega) j hjk c hc1 hc2
      rw [mergeRowStep_keep _ _ _ _ _ _ (by omega) (sr + j) c hne]
      exact hne
    · have : j = k := by omega
      subst this
      exact mergeRowStep_filled _ _ _ _ _ _ (by omega) htl c hc1 hc2

/-- Applying one merge preserves the row count. -/
theorem applyOneMerge_length (ws : WS) (maxRows : Nat) (mat : Matrix)
    (m : MergeRange) (hlen : maxRows ≤ mat.length) :
    (applyOneMerge ws maxRows mat m).length = mat.length := by
  unfold applyOneMerge
  split
  · rfl
  · next hsr =>
    split
    · rfl
    · have hre : min m.er (maxRows - 1) ≤ maxRows - 1 := Nat.min_le_right _ _
      exact mergeFold_length _ _ _ _ _ mat (by omega)

/-- Applying one merge never changes a non-blank cell. -/
theorem applyOneMerge_keep (ws : WS) (maxRows : Nat) (mat : Matrix)
    (m : MergeRange) (hlen : maxRows ≤ mat.length) (r c : Nat)
    (hne : cellTrim (getCell mat r c) ≠ "") :
    getCell (applyOneMerge ws maxRows mat m) r c = getCell mat r c := by
  unfold applyOneMerge
  split
  · rfl
  · next hsr =>
    split
    · rfl
    · have hre : min m.er (maxRows - 1) ≤ maxRows - 1 := Nat.min_le_right _ _
      exact mergeFold_keep _ _ _ _ _ mat (by omega) r c hne

/-- Applying one qualifying merge fills its clipped range. -/
theorem applyOneMerge_filled (ws : WS) (maxRows : Nat) (mat : Matrix)
    (m : MergeRange) (hlen : maxRows ≤ mat.length) (hsr : m.sr < maxRows)
    (htl : cellTrim (getCellValueMerged ws m.sr m.sc) ≠ "") (r c : Nat)
    (hr1 : m.sr ≤ r) (hr2 : r ≤ min m.er (maxRows - 1)) (hc1 : m.sc ≤ c)
    (hc2 : c ≤ m.ec) :
    cellTrim (getCell (applyOneMerge ws maxRows mat m) r c) ≠ "" := by
  unfold applyOneMerge
  rw [if_neg (by omega), if_neg (fun h => htl (cellTrim_eq_of_empty _ h))]
  have hre : min m.er (maxRows - 1) ≤ maxRows - 1 := Nat.min_le_right _ _
  have hrj : r = m.sr + (r - m.sr) := by omega
  rw [hrj]
  exact mergeFold_filled _ _ _ _ htl _ mat (by omega) (r - m.sr) (by omega)
    c hc1 hc2

/-- The fold over all merges preserves the row count. -/
theorem mergesFold_length (ws : WS) (maxRows : Nat) :
    ∀ (ms : List MergeRange) (mm : Matrix), maxRows ≤ mm.length →
      (ms.foldl (applyOneMerge ws maxRows) mm).length = mm.length := by
  intro ms
  induction ms with
  | nil => intro mm _; rfl
  | cons m t ih =>
    intro mm hb
    rw [List.foldl_cons]
    have h1 := applyOneMerge_length ws maxRows mm m hb
    rw [ih (applyOneMerge ws maxRows mm m) (by omega), h1]

/-- The fold over all merges never changes a non-blank cell. -/
theorem mergesFold_keep (ws : WS) (maxRows : Nat) :
    ∀ (ms : List MergeRange) (mm : Matrix), maxRows ≤ mm.length →
      ∀ (r c : Nat), cellTrim (getCell mm r c) ≠ "" →
      getCell (ms.foldl (applyOneMerge ws maxRows) mm) r c = getCell mm r c := by
  intro ms
  induction ms with
  | nil => intro mm _ r c _; rfl
  | cons m t ih =>
    intro mm hb r c hne
    rw [List.foldl_cons]
    have h1 := applyOneMerge_length ws maxRows mm m hb
    have h2 := applyOneMerge_keep ws maxRows mm m hb r c hne
    rw [ih (applyOneMerge ws maxRows mm m) (by omega) r c (by rw [h2]; exact hne),
      h2]

/-- Padding with empty rows leaves every row read unchanged. -/
theorem pad_row (mat : Matrix) (n r : Nat) :
    (mat ++ List.replicate n ([] : List CellV)).getD r [] = mat.getD r [] := by
  rcases lt_or_ge r mat.length with hr | hr
  · rw [List.getD_append _ _ _ _ hr]
  · rw [List.getD_append_right _ _ _ _ hr, List.getD_eq_default _ _ hr]
    rcases lt_or_ge (r - mat.length) n with hrn | hrn
    · rw [List.getD_eq_getElem _ _ (by rw [List.length_replicate]; omega),
        List.getElem_replicate]
    · rw [List.getD_eq_default _ _ (by rw [List.length_replicate]; omega)]

/-- Padding with empty rows changes no cell content. -/
theorem pad_getCell (mat : Matrix) (n : Nat) (r c : Nat) :
    getCell (mat ++ List.replicate n []) r c = getCell mat r c := by
  unfold getCell
  rw [pad_row]

/-- The padded matrix has at least `maxRows` rows. -/
theorem pad_length (mat : Matrix) (maxRows : Nat) :
    maxRows ≤ (mat ++ List.replicate (maxRows - mat.length) []).length := by
  rw [List.length_append, List.length_replicate]
  omega

/-- A cell with blank trimmed text passes the blank test. -/
theorem isEmpty_of_cellTrim (v : CellV) (h : cellTrim v = "") :
    isEmptyCellB v = true := by
  unfold isEmptyCellB
  rw [h]
  rfl

/-- A fill step changes no position other than its own column. -/
theorem fillStep_other (tl : CellV) (c1 : Nat) (rw : List CellV) (i p : Nat)
    (hp : p ≠ c1 + i) :
    (fillStep tl c1 rw i).getD p .vnull = rw.getD p .vnull := by
  unfold fillStep
  split
  · exact setPad_getD_ne rw (c1 + i) tl p hp
  · rfl

/-- A fill step on a blank target is exactly a padded write. -/
theorem fillStep_empty (tl : CellV) (c1 : Nat) (rw : List CellV) (i : Nat)
    (h : isEmptyCellB (rw.getD (c1 + i) .vnull) = true) :
    fillStep tl c1 rw i = setPad rw (c1 + i) tl := by
  unfold fillStep
  rw [if_pos h]

/-- The fill loop changes no position outside its column window. -/
theorem fillFold_untouched (tl : CellV) (c1 : Nat) :
    ∀ (n : Nat) (row : List CellV) (p : Nat), (∀ i, i < n → p ≠ c1 + i) →
      ((List.range n).foldl (fillStep tl c1) row).getD p .vnull =
        row.getD p .vnull := by
  intro n
  induction n with
  | zero => intro row p _; rfl
  | succ k ih =>
    intro row p hp
    rw [List.range_succ, List.foldl_append, List.foldl_cons, List.foldl_nil]
    rw [fillStep_other tl c1 _ k p (hp k (by omega)),
      ih row p (fun i hi => hp i (by omega))]

/-- The fill loop writes exactly the fill value into every covered cell
that was blank. -/
theorem fillFold_value (tl : CellV) (c1 : Nat) :
    ∀ (n : Nat) (row : List CellV) (p : Nat), c1 ≤ p → p < c1 + n →
      cellTrim (row.getD p .vnull) = "" →
      ((List.range n).foldl (fillStep tl c1) row).getD p .vnull = tl := by
  intro n
  induction n with
  | zero => intro row p h1 h2 _; omega
  | succ k ih =>
    intro row p h1 h2 hemp
    rw [List.range_succ, List.foldl_append, List.foldl_cons, List.foldl_nil]
    by_cases hk : p < c1 + k
    · rw [fillStep_other tl c1 _ k p (by omega), ih row p h1 hk hemp]
    · have hp : p = c1 + k := by omega
      subst hp
      have huntouched :
          ((List.range k).foldl (fillStep tl c1) row).getD (c1 + k) .vnull =
            row.getD (c1 + k) .vnull :=
        fillFold_untouched tl c1 k row (c1 + k) (fun i hi => by omega)
      rw [fillStep_empty tl c1 _ k
        (by rw [huntouched]; exact isEmpty_of_cellTrim _ hemp),
        setPad_getD_self]

/-- The whole fill of a row writes the fill value into every covered
cell that was blank. -/
theorem fillRow_value (row : List CellV) (tl : CellV) (c1 c2 : Nat) (p : Nat)
    (h1 : c1 ≤ p) (h2 : p ≤ c2) (hemp : cellTrim (row.getD p .vnull) = "") :
    (fillRow row tl c1 c2).getD p .vnull = tl := by
  unfold fillRow
  exact fillFold_value tl c1 (c2 + 1 - c1) row p h1 (by omega) hemp

/-- The whole fill of a row changes nothing outside its column window. -/
theorem fillRow_outside (row : List CellV) (tl : CellV) (c1 c2 : Nat) (p : Nat)
    (h : p < c1 ∨ c2 < p) :
    (fillRow row tl c1 c2).getD p .vnull = row.getD p .vnull := by
  unfold fillRow
  exact fillFold_untouched tl c1 (c2 + 1 - c1) row p (fun i hi => by omega)

/-- A per-merge row step changes no row other than its own. -/
theorem mergeRowStep_getD_ne (tl : CellV) (sr sc ec : Nat) (mm : Matrix)
    (i : Nat) (hb : sr + i < mm.length) (r : Nat) (hr : r ≠ sr + i) :
    (mergeRowStep tl sr sc ec mm i).getD r [] = mm.getD r [] := by
  unfold mergeRowStep
  exact matSetPad_getD_ne mm (sr + i) _ hb r hr

/-- A per-merge row step replaces its own row by the filled row. -/
theorem mergeRowStep_getD_self (tl : CellV) (sr sc ec : Nat) (mm : Matrix)
    (i : Nat) (hb : sr + i < mm.length) :
    (mergeRowStep tl sr sc ec mm i).getD (sr + i) [] =
      fillRow (mm.getD (sr + i) []) tl sc ec := by
  unfold mergeRowStep
  exact matSetPad_getD_self mm (sr + i) _ hb

/-- The per-merge row loop changes no row outside its row window. -/
theorem mergeFold_row_untouched (tl : CellV) (sr sc ec : Nat) :
    ∀ (n : Nat) (mm : Matrix), sr + n ≤ mm.length → ∀ r,
      (∀ i, i < n → r ≠ sr + i) →
      ((List.range n).foldl (mergeRowStep tl sr sc ec) mm).getD r [] =
        mm.getD r [] := by
  intro n
  induction n with
  | zero => intro mm _ r _; rfl
  | succ k ih =>
    intro mm hb r hr
    rw [List.range_succ, List.foldl_append, List.foldl_cons, List.foldl_nil]
    have hlen := mergeFold_length tl sr sc ec k mm (by omega)
    rw [mergeRowStep_getD_ne tl sr sc ec _ k (by omega) r (hr k (by omega)),
      ih mm (by omega) r (fun i hi => hr i (by omega))]

/-- The per-merge row loop writes exactly the top-left value into every
covered cell that was blank. -/
theorem mergeFold_value (tl : CellV) (sr sc ec : Nat) :
    ∀ (n : Nat) (mm : Matrix), sr + n ≤ mm.length → ∀ j, j < n →
      ∀ c, sc ≤ c → c ≤ ec → cellTrim (getCell mm (sr + j) c) = "" →
      getCell ((List.range n).foldl (mergeRowStep tl sr sc ec) mm)
        (sr + j) c = tl := by
  intro n
  induction n with
  | zero => intro mm _ j hj; exact absurd hj (Nat.not_lt_zero j)
  | succ k ih =>
    intro mm hb j hj c hc1 hc2 hemp
    rw [List.range_succ, List.foldl_append, List.foldl_cons, List.foldl_nil]
    have hlen := mergeFold_length tl sr sc ec k mm (by omega)
    by_cases hjk : j < k
    · have hv := ih mm (by omega) j hjk c hc1 hc2 hemp
      unfold getCell at hv ⊢
      rw [mergeRowStep_getD_ne tl sr sc ec _ k (by omega) (sr + j) (by omega)]
      exact hv
    · have hj2 : k = j := by omega
      subst hj2
      have hrow : ((List.range k).foldl (mergeRowStep tl sr sc ec) mm).getD
          (sr + k) [] = mm.getD (sr + k) [] :=
        mergeFold_row_untouched tl sr sc ec k mm (by omega) (sr + k)
          (fun i hi => by omega)
      unfold getCell at hemp ⊢
      rw [mergeRowStep_getD_self tl sr sc ec _ k (by omega), hrow]
      exact fillRow_value (mm.getD (sr + k) []) tl sc ec c hc1 hc2 hemp

/-- The per-merge row loop changes no cell outside its column window,
even on covered rows. -/
theorem mergeFold_col_outside (tl : CellV) (sr sc ec : Nat) :
    ∀ (n : Nat) (mm : Matrix), sr + n ≤ mm.length → ∀ j, j < n →
      ∀ c, c < sc ∨ ec < c →
      getCell ((List.range n).foldl (mergeRowStep tl sr sc ec) mm)
        (sr + j) c = getCell mm (sr + j) c := by
  intro n
  induction n with
  | zero => intro mm _ j hj; exact absurd hj (Nat.not_lt_zero j)
  | succ k ih =>
    intro mm hb j hj c hc
    rw [List.range_succ, List.foldl_append, List.foldl_cons, List.foldl_nil]
    have hlen := mergeFold_length tl sr sc ec k mm (by omega)
    by_cases hjk : j < k
    · have hv := ih mm (by omega) j hjk c hc
      unfold getCell at hv ⊢
      rw [mergeRowStep_getD_ne tl sr sc ec _ k (by omega) (sr + j) (by omega)]
      exact hv
    · have hj2 : k = j := by omega
      subst hj2
      have hrow : ((List.range k).foldl (mergeRowStep tl sr sc ec) mm).getD
          (sr + k) [] = mm.getD (sr + k) [] :=
        mergeFold_row_untouched tl sr sc ec k mm (by omega) (sr + k)
          (fun i hi => by omega)
      unfold getCell
      rw [mergeRowStep_getD_self tl sr sc ec _ k (by omega), hrow,
        fillRow_outside (mm.getD (sr + k) []) tl sc ec c hc]

/-- Applying one qualifying merge writes exactly its top-left value into
every covered clipped cell that was blank. -/
theorem applyOneMerge_value (ws : WS) (maxRows : Nat) (mat : Matrix)
    (m : MergeRange) (hlen : maxRows ≤ mat.length) (hsr : m.sr < maxRows)
    (htl : cellTrim (getCellValueMerged ws m.sr m.sc) ≠ "") (r c : Nat)
    (hr1 : m.sr ≤ r) (hr2 : r ≤ min m.er (maxRows - 1)) (hc1 : m.sc ≤ c)
    (hc2 : c ≤ m.ec) (hemp : cellTrim (getCell mat r c) = "") :
    getCell (applyOneMerge ws maxRows mat m) r c =
      getCellValueMerged ws m.sr m.sc := by
  unfold applyOneMerge
  rw [if_neg (by omega), if_neg (fun h => htl (cellTrim_eq_of_empty _ h))]
  have hre : min m.er (maxRows - 1) ≤ maxRows - 1 := Nat.min_le_right _ _
  have hrj : r = m.sr + (r - m.sr) := by omega
  rw [hrj] at hemp ⊢
  exact mergeFold_value _ _ _ _ _ mat (by omega) (r - m.sr) (by omega)
    c hc1 hc2 hemp

/-- Applying a merge that does not qualify for or cover a cell leaves
that cell unchanged. -/
theorem applyOneMerge_notcover (ws : WS) (mat : Matrix) (m : MergeRange)
    (hlen : 30 ≤ mat.length) (r c : Nat) (hnc : ¬ coversQual ws m r c) :
    getCell (applyOneMerge ws 30 mat m) r c = getCell mat r c := by
  unfold applyOneMerge
  by_cases h1 : (30 : Nat) ≤ m.sr
  · rw [if_pos h1]
  · rw [if_neg h1]
    by_cases h2 : isEmptyCellB (getCellValueMerged ws m.sr m.sc) = true
    · rw [if_pos h2]
    · rw [if_neg h2]
      have htl : cellTrim (getCellValueMerged ws m.sr m.sc) ≠ "" :=
        cellTrim_ne_of_not_empty _ h2
      have hre : min m.er (30 - 1) ≤ 30 - 1 := Nat.min_le_right _ _
      have hpos : ¬ (m.sr ≤ r ∧ r ≤ min m.er 29 ∧ m.sc ≤ c ∧ c ≤ m.ec) :=
        fun hp => hnc ⟨by omega, htl, hp.1, hp.2.1, hp.2.2.1, hp.2.2.2⟩
      by_cases hrow : m.sr ≤ r ∧ r ≤ min m.er (30 - 1)
      · have hcol : c < m.sc ∨ m.ec < c := by omega
        have hrj : r = m.sr + (r - m.sr) := by omega
        rw [hrj]
        exact mergeFold_col_outside _ _ _ _ _ mat (by omega) (r - m.sr)
          (by omega) c hcol
      · have hrowu :
            ((List.range (min m.er (30 - 1) + 1 - m.sr)).foldl
              (mergeRowStep (getCellValueMerged ws m.sr m.sc) m.sr m.sc m.ec)
              mat).getD r [] = mat.getD r [] :=
          mergeFold_row_untouched _ _ _ _ _ mat (by omega) r
            (fun i hi => by omega)
        unfold getCell
        rw [hrowu]

/-- The fold over merges that neither qualify for nor cover a cell
leaves that cell unchanged. -/
theorem mergesFold_outside (ws : WS) :
    ∀ (ms : List MergeRange) (mm : Matrix), 30 ≤ mm.length → ∀ (r c : Nat),
      (∀ m2 ∈ ms, ¬ coversQual ws m2 r c) →
      getCell (ms.foldl (applyOneMerge ws 30) mm) r c = getCell mm r c := by
  intro ms
  induction ms with
  | nil => intro mm _ r c _; rfl
  | cons m t ih =>
    intro mm h30 r c hall
    rw [List.foldl_cons]
    have h1 := applyOneMerge_length ws 30 mm m h30
    have h2 := applyOneMerge_notcover ws mm m h30 r c
      (hall m (List.mem_cons_self m t))
    rw [ih (applyOneMerge ws 30 mm m) (by omega) r c
      (fun m2 hm2 => hall m2 (List.mem_cons_of_mem m hm2)), h2]

/-- Claim C8, amended.  With no merge ranges the normalizer returns the
matrix unchanged (so an empty input stays empty); with at least one
merge range the result has at least 30 rows.  In every case no
originally non-blank cell is changed; every cell of a merge range whose
top row is under 30 and whose top-left value is non-blank is non-blank
in the result, within the first 30 rows of the range; and every
originally-blank such cell that no earlier qualifying range in the
merge list covers is filled with exactly that range's top-left value. -/
theorem claim_C8 :
    (∀ (ws : WS) (mat : Matrix), ws.merges = [] →
      applyMergesToMatrix ws mat 30 = mat) ∧
    (∀ (ws : WS) (mat : Matrix), ws.merges ≠ [] →
      30 ≤ (applyMergesToMatrix ws mat 30).length) ∧
    (∀ (ws : WS) (mat : Matrix) (r c : Nat),
      cellTrim (getCell mat r c) ≠ "" →
      getCell (applyMergesToMatrix ws mat 30) r c = getCell mat r c) ∧
    (∀ (ws : WS) (mat : Matrix) (m : MergeRange), m ∈ ws.merges →
      m.sr < 30 → cellTrim (getCellValueMerged ws m.sr m.sc) ≠ "" →
      ∀ r c, m.sr ≤ r → r ≤ min m.er 29 → m.sc ≤ c → c ≤ m.ec →
        cellTrim (getCell (applyMergesToMatrix ws mat 30) r c) ≠ "") ∧
    (∀ (ws : WS) (mat : Matrix) (l1 l2 : List MergeRange) (m : MergeRange),
      ws.merges = l1 ++ m :: l2 → m.sr < 30 →
      cellTrim (getCellValueMerged ws m.sr m.sc) ≠ "" →
      ∀ r c, m.sr ≤ r → r ≤ min m.er 29 → m.sc ≤ c → c ≤ m.ec →
        cellTrim (getCell mat r c) = "" →
        (∀ m2 ∈ l1, ¬ coversQual ws m2 r c) →
        getCell (applyMergesToMatrix ws mat 30) r c =
          getCellValueMerged ws m.sr m.sc) := by
  have hmain : ∀ (ws : WS) (mat : Matrix), ws.merges ≠ [] →
      applyMergesToMatrix ws mat 30 =
        ws.merges.foldl (applyOneMerge ws 30)
          (mat ++ List.replicate (30 - mat.length) []) := by
    intro ws mat h
    unfold applyMergesToMatrix
    rw [if_neg (by simpa [List.isEmpty_iff] using h)]
  refine ⟨?_, ?_, ?_, ?_, ?_⟩
  · intro ws mat h
    unfold applyMergesToMatrix
    rw [if_pos (by simpa [List.isEmpty_iff] using h)]
  · intro ws mat h
    rw [hmain ws mat h,
      mergesFold_length ws 30 ws.merges _ (pad_length mat 30)]
    exact pad_length mat 30
  · intro ws mat r c hne
    by_cases h : ws.merges = []
    · unfold applyMergesToMatrix
      rw [if_pos (by simpa [List.isEmpty_iff] using h)]
    · rw [hmain ws mat h,
        mergesFold_keep ws 30 ws.merges _ (pad_length mat 30) r c
          (by rw [pad_getCell]; exact hne)]
      exact pad_getCell mat _ r c
  · intro ws mat m hm hsr htl r c hr1 hr2 hc1 hc2
    have hne : ws.merges ≠ [] := fun h => by rw [h] at hm; cases hm
    rw [hmain ws mat hne]
    rcases List.append_of_mem hm with ⟨l1, l2, hsplit⟩
    rw [hsplit, List.foldl_append, List.foldl_cons]
    set m0 : Matrix := mat ++ List.replicate (30 - mat.length) [] with hm0
    have hlen0 : (30 : Nat) ≤ m0.length := pad_length mat 30
    have hlenA : (30 : Nat) ≤ (l1.foldl (applyOneMerge ws 30) m0).length := by
      rw [mergesFold_length ws 30 l1 m0 hlen0]
      exact hlen0
    have hfilled := applyOneMerge_filled ws 30
      (l1.foldl (applyOneMerge ws 30) m0) m hlenA hsr htl r c hr1 hr2 hc1 hc2
    have hlenB : (30 : Nat) ≤
        (applyOneMerge ws 30 (l1.foldl (applyOneMerge ws 30) m0) m).length := by
      rw [applyOneMerge_length ws 30 _ m hlenA]
      exact hlenA
    rw [mergesFold_keep ws 30 l2 _ hlenB r c hfilled]
    exact hfilled
  · intro ws mat l1 l2 m hsplit hsr htl r c hr1 hr2 hc1 hc2 hemp hfirst
    have hne : ws.merges ≠ [] := by
      rw [hsplit]
      intro h
      exact List.cons_ne_nil m l2 (List.append_eq_nil.mp h).2
    rw [hmain ws mat hne, hsplit, List.foldl_append, List.foldl_cons]
    set m0 : Matrix := mat ++ List.replicate (30 - mat.length) [] with hm0
    have hlen0 : (30 : Nat) ≤ m0.length := pad_length mat 30
    have hlenA : (30 : Nat) ≤ (l1.foldl (applyOneMerge ws 30) m0).length := by
      rw [mergesFold_length ws 30 l1 m0 hlen0]
      exact hlen0
    have hA : getCell (l1.foldl (applyOneMerge ws 30) m0) r c =
        getCell mat r c := by
      rw [mergesFold_outside ws l1 m0 hlen0 r c hfirst]
      exact pad_getCell mat (30 - mat.length) r c
    have hempA : cellTrim (getCell (l1.foldl (applyOneMerge ws 30) m0) r c)
        = "" := by
      rw [hA]
      exact hemp
    have hval := applyOneMerge_value ws 30 (l1.foldl (applyOneMerge ws 30) m0)
      m hlenA hsr htl r c hr1 (by omega) hc1 hc2 hempA
    have hlenB : (30 : Nat) ≤
        (applyOneMerge ws 30 (l1.foldl (applyOneMerge ws 30) m0) m).length := by
      rw [applyOneMerge_length ws 30 _ m hlenA]
      exact hlenA
    have hnb : cellTrim (getCell
        (applyOneMerge ws 30 (l1.foldl (applyOneMerge ws 30) m0) m) r c)
        ≠ "" := by
      rw [hval]
      exact htl
    rw [mergesFold_keep ws 30 l2 _ hlenB r c hnb]
    exact hval

/-- Claim C8 counterexample. With no merge ranges a 1-row matrix is
returned as is: the output does not have at least 30 rows, and with a
merge range present an empty input is padded, not kept empty. -/
theorem claim_C8_cx :
    ¬ 30 ≤ (applyMergesToMatrix wsNoMerges [[CellV.vstr "x"]] 30).length ∧
      (applyMergesToMatrix wsOneMerge [] 30).length = 30 := by
  constructor <;> with_unfolding_all decide

/-- Claim C8 witness: the amended claim at the 3-cell top-row merge,
including the exact fill value of an originally-blank covered cell. -/
theorem claim_C8_witness :
    wsOneMerge.merges ≠ [] ∧
      30 ≤ (applyMergesToMatrix wsOneMerge [[CellV.vstr "组"]] 30).length ∧
      cellTrim (getCell (applyMergesToMatrix wsOneMerge [[CellV.vstr "组"]] 30)
        1 2) ≠ "" ∧
      getCell (applyMergesToMatrix wsOneMerge [[CellV.vstr "组"]] 30) 1 2 =
        getCellValueMerged wsOneMerge 0 0 :=
  ⟨by with_unfolding_all decide,
    claim_C8.2.1 wsOneMerge [[CellV.vstr "组"]]
      (by with_unfolding_all decide),
    claim_C8.2.2.2.1 wsOneMerge [[CellV.vstr "组"]] ⟨0, 0, 1, 2⟩
      (by with_unfolding_all decide) (by with_unfolding_all decide)
      (by with_unfolding_all decide) 1 2 (by with_unfolding_all decide)
      (by with_unfolding_all decide) (by with_unfolding_all decide)
      (by with_unfolding_all decide),
    claim_C8.2.2.2.2 wsOneMerge [[CellV.vstr "组"]] [] [] ⟨0, 0, 1, 2⟩
      rfl (by with_unfolding_all decide) (by with_unfolding_all decide)
      1 2 (by with_unfolding_all decide) (by with_unfolding_all decide)
      (by with_unfolding_all decide) (by with_unfolding_all decide)
      (by with_unfolding_all decide)
      (fun m2 hm2 => absurd hm2 (List.not_mem_nil m2))⟩

/-- A fold whose step ignores elements failing `p` equals the fold over
the filtered list. -/
theorem foldl_filter_eq {α σ : Type} (p : α → Bool) (f : σ → α → σ) :
    ∀ (l : List α) (s : σ),
      l.foldl (fun b a => if p a then f b a else b) s =
        (l.filter p).foldl f s := by
  intro l
  induction l with
  | nil => intro s; rfl
  | cons a t ih =>
    intro s
    rw [List.foldl_cons, List.filter_cons]
    by_cases h : p a
    · rw [if_pos h, if_pos h, List.foldl_cons, ih]
    · rw [if_neg h, if_neg (by simpa using h), ih]

/-- The header locator is the first-maximum selection over the candidate
rows of the scan window. -/
theorem detectHeader_eq (mat : Matrix) :
    detectHeaderStartRow mat =
      (selFold (headerScore mat) (fun r => r)
        ((List.range (min 18 mat.length)).filter (headerCand mat))
        (0, (-1 : Int))).1 := by
  unfold detectHeaderStartRow selFold
  rw [← foldl_filter_eq (headerCand mat)
    (fun b r => if b.2 < headerScore mat r then (r, headerScore mat r) else b)]
  dsimp only
  congr 1
  apply List.foldl_ext
  intro b r _
  by_cases ht : looksLikeTitle (mat.getD r []) = true
  · rw [if_pos ht]
    have ht3 : ¬ headerCand mat r = true := by
      unfold headerCand
      rw [ht]
      simp
    rw [if_neg ht3]
  · have ht2 : looksLikeTitle (mat.getD r []) = false := by
      revert ht
      cases looksLikeTitle (mat.getD r []) <;> simp
    rw [if_neg ht]
    by_cases hk : hasKeywordB (mat.getD r []) = true
    · have hcand : headerCand mat r = true := by
        unfold headerCand
        rw [ht2, hk]
        cases hdec : decide (3 ≤ rowNonEmptyCount (mat.getD r [])) <;> rfl
      rw [if_neg (fun h => h.2 hk), hcand, if_pos rfl]
      unfold headerScore
      rw [if_pos hk]
    · have hk2 : hasKeywordB (mat.getD r []) = false := by
        revert hk
        cases hasKeywordB (mat.getD r []) <;> simp
      by_cases h3 : rowNonEmptyCount (mat.getD r []) < 3
      · have hcand : ¬ headerCand mat r = true := by
          unfold headerCand
          rw [ht2, hk2, decide_eq_false
            (by omega : ¬ 3 ≤ rowNonEmptyCount (mat.getD r []))]
          simp
        rw [if_pos ⟨h3, hk⟩, if_neg hcand]
      · have hcand : headerCand mat r = true := by
          unfold headerCand
          rw [ht2, hk2, decide_eq_true
            (by omega : 3 ≤ rowNonEmptyCount (mat.getD r []))]
          rfl
        rw [if_neg (fun h => h3 h.1), hcand, if_pos rfl]
        unfold headerScore
        rw [if_neg hk]

/-- Header scores are non-negative. -/
theorem headerScore_nonneg (mat : Matrix) (r : Nat) :
    0 ≤ headerScore mat r := by
  unfold headerScore
  split <;> omega

/-- Claim C9, amended.  Whenever the scan window contains at least one
candidate row (not a title row, with at least 3 non-empty cells or a
keyword), the located header row is a candidate — hence never a title
row — with the maximal score, earliest on ties; when no candidate
exists, row 0 is returned by default even if it is a title row.  The
concrete title-then-header matrix locates row 2. -/
theorem claim_C9 :
    (∀ mat : Matrix,
      (∃ r, r < min 18 mat.length ∧ headerCand mat r = true) →
      headerCand mat (detectHeaderStartRow mat) = true ∧
        detectHeaderStartRow mat < min 18 mat.length ∧
        (∀ r, r < min 18 mat.length → headerCand mat r = true →
          headerScore mat r ≤ headerScore mat (detectHeaderStartRow mat)) ∧
        (∀ r, r < detectHeaderStartRow mat → headerCand mat r = true →
          headerScore mat r < headerScore mat (detectHeaderStartRow mat))) ∧
      detectHeaderStartRow matTitleThenHeader = 2 := by
  refine ⟨?_, by with_unfolding_all decide⟩
  rintro mat ⟨r0, hr0l, hr0c⟩
  have hr0m : r0 ∈ (List.range (min 18 mat.length)).filter (headerCand mat) :=
    List.mem_filter.mpr ⟨List.mem_range.mpr hr0l, hr0c⟩
  have hbridge := detectHeader_eq mat
  rcases selFold_spec (headerScore mat) (fun r => r)
      ((List.range (min 18 mat.length)).filter (headerCand mat))
      (0, (-1 : Int)) with ⟨hall, _⟩ | ⟨l1, a, l2, hsplit, heq, _, h1, h2⟩
  · have := hall r0 hr0m
    have := headerScore_nonneg mat r0
    omega
  · have hres : detectHeaderStartRow mat = a := by rw [hbridge, heq]
    have ham : a ∈ (List.range (min 18 mat.length)).filter (headerCand mat) := by
      rw [hsplit]
      exact List.mem_append_right _ (List.mem_cons_self a l2)
    have haf := List.mem_filter.mp ham
    have hal : a < min 18 mat.length := List.mem_range.mp haf.1
    have hpw : ((List.range (min 18 mat.length)).filter
        (headerCand mat)).Pairwise (· < ·) :=
      (List.pairwise_lt_range _).sublist (List.filter_sublist _)
    rw [hsplit, List.pairwise_append] at hpw
    refine ⟨by rw [hres]; exact haf.2, by rw [hres]; exact hal, ?_, ?_⟩
    · intro r hrl hrc
      rw [hres]
      have hrm : r ∈ (List.range (min 18 mat.length)).filter (headerCand mat) :=
        List.mem_filter.mpr ⟨List.mem_range.mpr hrl, hrc⟩
      rw [hsplit] at hrm
      rcases List.mem_append.mp hrm with hr | hr
      · exact le_of_lt (h1 r hr)
      · rcases List.mem_cons.mp hr with rfl | hr
        · exact le_refl _
        · exact h2 r hr
    · intro r hra hrc
      rw [hres] at hra ⊢
      have hrl : r < min 18 mat.length := lt_trans hra hal
      have hrm : r ∈ (List.range (min 18 mat.length)).filter (headerCand mat) :=
        List.mem_filter.mpr ⟨List.mem_range.mpr hrl, hrc⟩
      rw [hsplit] at hrm
      rcases List.mem_append.mp hrm with hr | hr
      · exact h1 r hr
      · rcases List.mem_cons.mp hr with rfl | hr
        · omega
        · have := (List.pairwise_cons.mp hpw.2.1).1 r hr
          omega

/-- Claim C9 counterexample. A matrix whose only row is a long
single-cell title row locates row 0, which is a title row: the locator
can select a title row when no candidate exists. -/
theorem claim_C9_cx :
    detectHeaderStartRow matOnlyTitle = 0 ∧
      looksLikeTitle (matOnlyTitle.getD 0 []) = true := by
  constructor <;> with_unfolding_all decide

/-- Claim C9 witness: the amended claim at the concrete matrix, whose
row 2 is a candidate. -/
theorem claim_C9_witness :
    (2 < min 18 matTitleThenHeader.length ∧
      headerCand matTitleThenHeader 2 = true) ∧
    (headerCand matTitleThenHeader
        (detectHeaderStartRow matTitleThenHeader) = true ∧
      detectHeaderStartRow matTitleThenHeader <
        min 18 matTitleThenHeader.length ∧
      (∀ r, r < min 18 matTitleThenHeader.length →
        headerCand matTitleThenHeader r = true →
        headerScore matTitleThenHeader r ≤
          headerScore matTitleThenHeader
            (detectHeaderStartRow matTitleThenHeader)) ∧
      (∀ r, r < detectHeaderStartRow matTitleThenHeader →
        headerCand matTitleThenHeader r = true →
        headerScore matTitleThenHeader r <
          headerScore matTitleThenHeader
            (detectHeaderStartRow matTitleThenHeader))) :=
  ⟨⟨by with_unfolding_all decide, by with_unfolding_all decide⟩,
    claim_C9.1 matTitleThenHeader
      ⟨2, by with_unfolding_all decide, by with_unfolding_all decide⟩⟩

/-- The seed of the name guesser is the key of some column. -/
theorem nameSeed_mem (cols : List ParsedColumn) (hne : cols ≠ []) :
    ∃ c ∈ cols, nameSeed cols = c.key := by
  unfold nameSeed
  cases hfind : cols.find? (fun c =>
      let h := normalizeHeader c.label
      hInc h "姓名" || hInc h "名字") with
  | some c =>
    exact ⟨c, List.mem_of_find?_eq_some hfind, rfl⟩
  | none =>
    cases cols with
    | nil => exact absurd rfl hne
    | cons c t => exact ⟨c, List.mem_cons_self c t, rfl⟩

/-- The name guesser always returns the key of one of the block's
columns when the block has any column. -/
theorem guessNameCol_mem (rows : List Row) (cols : List ParsedColumn)
    (hne : cols ≠ []) : ∃ c ∈ cols, guessNameCol rows cols = c.key := by
  unfold guessNameCol
  rcases selFold_reach (nameScore rows) (fun c => c.key) cols
      (nameSeed cols, (-1 : ℚ)) with h | ⟨a, ha, h⟩
  · rw [h]
    exact nameSeed_mem cols hne
  · rw [h]
    exact ⟨a, ha, rfl⟩

/-- Every produced column of a block has a non-empty key. -/
theorem makeUnique_key_ne (headers : List String) (start stop : Nat)
    (c : ParsedColumn) (hc : c ∈ makeUniqueColumns headers start stop) :
    c.key ≠ "" := by
  unfold makeUniqueColumns at hc
  rcases List.mem_map.mp hc with ⟨i, _, hci⟩
  intro h
  rw [← hci] at h
  dsimp only at h
  have hl := congrArg String.length h
  rw [String.length_append, String.length_append] at hl
  have h2 : ("__" : String).length = 2 := rfl
  have h0 : ("" : String).length = 0 := rfl
  omega

/-- A block produced by the splitter spans at least 3 columns. -/
theorem splitBlocks_wide (view : Matrix) (headers : List String)
    (rg : ColRange) (h : rg ∈ splitBlocks view headers) :
    3 ≤ rg.stop + 1 - rg.start := by
  unfold splitBlocks at h
  have := (List.mem_filter.mp h).2
  exact of_decide_eq_true this

/-- The number of columns of a produced block. -/
theorem makeUnique_length (headers : List String) (start stop : Nat) :
    (makeUniqueColumns headers start stop).length = stop + 1 - start := by
  unfold makeUniqueColumns
  rw [List.length_map, List.length_range]

/-- The resolved name column of a block with non-empty keys is one of
those keys, hence non-empty. -/
theorem resolveNameCol_ne (cols : List ParsedColumn) (rows : List Row)
    (hne : cols ≠ []) (hkeys : ∀ c ∈ cols, c.key ≠ "") :
    resolveNameCol cols rows ≠ "" := by
  unfold resolveNameCol
  by_cases hh : (findAllNameCols cols).headD "" ≠ ""
  · rw [if_pos hh]
    exact hh
  · rw [if_neg hh]
    rcases guessNameCol_mem rows cols hne with ⟨c, hc, hck⟩
    rw [hck]
    exact hkeys c hc

/-- Claim C10.  The name guesser returns the key of some column of any
non-empty block; every block produced by the splitter has at least 3
columns (all with non-empty keys), so the per-sheet record fields always
carry a non-empty name column and the "no name column" fatal branch is
unreachable: the fatal list can only hold the multiple-name-columns
error. -/
theorem claim_C10 :
    (∀ (rows : List Row) (cols : List ParsedColumn), cols ≠ [] →
      ∃ c ∈ cols, guessNameCol rows cols = c.key) ∧
    (∀ (view : Matrix) (headers : List String) (rows : List Row)
        (rg : ColRange), rg ∈ splitBlocks view headers →
      3 ≤ (makeUniqueColumns headers rg.start rg.stop).length ∧
      (mkSheetFields (makeUniqueColumns headers rg.start rg.stop) rows).nameCol
        ≠ "" ∧
      (mkSheetFields (makeUniqueColumns headers rg.start rg.stop)
          rows).fatalErrors =
        (if 2 ≤ (findAllNameCols
            (makeUniqueColumns headers rg.start rg.stop)).length then
          [msgMultiName (findAllNameCols
            (makeUniqueColumns headers rg.start rg.stop)).length]
        else [])) := by
  refine ⟨guessNameCol_mem, ?_⟩
  intro view headers rows rg hrg
  have hwide := splitBlocks_wide view headers rg hrg
  have hlen := makeUnique_length headers rg.start rg.stop
  have hcne : makeUniqueColumns headers rg.start rg.stop ≠ [] := by
    intro h
    rw [h] at hlen
    simp at hlen
    omega
  have hname : resolveNameCol (makeUniqueColumns headers rg.start rg.stop)
      rows ≠ "" :=
    resolveNameCol_ne _ rows hcne (makeUnique_key_ne headers rg.start rg.stop)
  refine ⟨by omega, hname, ?_⟩
  show (if resolveNameCol (makeUniqueColumns headers rg.start rg.stop) rows
      = "" then _ else _) = _
  rw [if_neg hname]

/-- Claim C10 witness: the general statements at a concrete 3-column
block. -/
theorem claim_C10_witness :
    (∃ c ∈ makeUniqueColumns headersOneBlock 0 2,
      guessNameCol [] (makeUniqueColumns headersOneBlock 0 2) = c.key) ∧
    (ColRange.mk 0 2 ∈ splitBlocks viewOneBlock headersOneBlock ∧
      3 ≤ (makeUniqueColumns headersOneBlock 0 2).length ∧
      (mkSheetFields (makeUniqueColumns headersOneBlock 0 2) []).nameCol ≠ "" ∧
      (mkSheetFields (makeUniqueColumns headersOneBlock 0 2) []).fatalErrors =
        (if 2 ≤ (findAllNameCols (makeUniqueColumns headersOneBlock 0 2)).length
        then [msgMultiName
          (findAllNameCols (makeUniqueColumns headersOneBlock 0 2)).length]
        else [])) :=
  ⟨claim_C10.1 [] (makeUniqueColumns headersOneBlock 0 2)
      (by with_unfolding_all decide),
    by with_unfolding_all decide,
    claim_C10.2 viewOneBlock headersOneBlock [] (ColRange.mk 0 2)
      (by with_unfolding_all decide)⟩

end ScoreTrend
